import Mathlib

/-!
Verification of the plane primitive of the point-set shape-detection
package (`Shape_detection_3/Plane.h`).

The number type `FT` of the traits class is modelled as the real numbers,
with `CGAL::sqrt` as `Real.sqrt`.  The point cloud accessors
`this->point` and `this->normal` are modelled as functions `ℕ → Vec3`.
The mutable member fields of `Plane` (together with the fields it
inherits from `Shape_base`) are gathered in a state record, and each
member function becomes a function over that state.
-/

/-- 3-D vector / point over the field type `FT = ℝ`
(`Traits::Vector_3`, `Traits::Point_3`). -/
structure Vec3 where
  x : ℝ
  y : ℝ
  z : ℝ

namespace Vec3

/-- Componentwise subtraction (`Point_3 - Point_3`, `Vector_3 - Vector_3`). -/
def sub (a b : Vec3) : Vec3 := ⟨a.x - b.x, a.y - b.y, a.z - b.z⟩

/-- Componentwise addition. -/
def add (a b : Vec3) : Vec3 := ⟨a.x + b.x, a.y + b.y, a.z + b.z⟩

/-- Scalar multiple (`v * FT`). -/
def smul (c : ℝ) (a : Vec3) : Vec3 := ⟨c * a.x, c * a.y, c * a.z⟩

instance : Sub Vec3 := ⟨sub⟩
instance : Add Vec3 := ⟨add⟩
instance : SMul ℝ Vec3 := ⟨smul⟩

/-- Inner product (`Vector_3 * Vector_3`). -/
def dot (a b : Vec3) : ℝ := a.x * b.x + a.y * b.y + a.z * b.z

/-- `CGAL::cross_product`. -/
def cross (a b : Vec3) : Vec3 :=
  ⟨a.y * b.z - a.z * b.y, a.z * b.x - a.x * b.z, a.x * b.y - a.y * b.x⟩

/-- `Vector_3::squared_length()`. -/
def squared_length (a : Vec3) : ℝ := a.x * a.x + a.y * a.y + a.z * a.z

/-- Euclidean length, `CGAL::sqrt(v.squared_length())`. -/
noncomputable def length (a : Vec3) : ℝ := Real.sqrt a.squared_length

end Vec3

/-- The member fields of `Plane<Traits>` together with the fields of
`Shape_base<Traits>` that its member functions read or write
(`m_normal_threshold`, `m_is_valid`). -/
structure PlaneState where
  m_point_on_primitive : Vec3
  m_base1 : Vec3
  m_base2 : Vec3
  m_normal : Vec3
  m_d : ℝ
  m_normal_threshold : ℝ
  m_is_valid : Bool

namespace PlaneState

/-- Modelled from the spec: the constructor `Shape_base()` lives in
`Shape_base.h`, which is not part of the supplied sources.  The spec says
`is_valid` is "set exactly once by the fitting step" and that on failure it
"stays false", so the freshly constructed flag is `false`; the geometric
fields start in an "unspecified but harmless" state, modelled as zeroes.
`normal_consistency_threshold` is "fixed at construction time". -/
def init (threshold : ℝ) : PlaneState :=
  { m_point_on_primitive := ⟨0, 0, 0⟩
    m_base1 := ⟨0, 0, 0⟩
    m_base2 := ⟨0, 0, 0⟩
    m_normal := ⟨0, 0, 0⟩
    m_d := 0
    m_normal_threshold := threshold
    m_is_valid := false }

end PlaneState

namespace Plane

/-- `Plane::minimum_sample_size()`. -/
def minimum_sample_size : ℕ := 3

/-- `Plane::supports_connected_component()`. -/
def supports_connected_component : Bool := true

/-- `Plane::wraps_u()`. -/
def wraps_u : Bool := false

/-- `Plane::wraps_v()`. -/
def wraps_v : Bool := false

/-- The body of the `for (i = 0; i < 3; i++)` consistency-check loop of
`Plane::create_shape`, iterating over the remaining loop counters.  Each
iteration fetches the supplied point normal of sample `i`, fails fast
(setting `m_is_valid := false`) if its deviation from the fitted normal
exceeds the threshold, and otherwise (re)assigns `m_point_on_primitive`,
`m_base1` and `m_base2`.  When the loop runs to completion,
`m_is_valid := true`. -/
noncomputable def consistency_loop (nrm : ℕ → Vec3) (indices : List ℕ)
    (p1 p2 : Vec3) : List ℕ → PlaneState → PlaneState
  | [], s => { s with m_is_valid := true }
  | i :: rest, s =>
    let l_v := nrm (indices.getD i 0)
    if |Vec3.dot l_v s.m_normal| <
        s.m_normal_threshold * Real.sqrt l_v.squared_length then
      { s with m_is_valid := false }
    else
      let b1 := Vec3.cross (p1 - p2) s.m_normal
      let m_base1 := (1 / Real.sqrt b1.squared_length) • b1
      let b2 := Vec3.cross m_base1 s.m_normal
      let m_base2 := (1 / Real.sqrt b2.squared_length) • b2
      consistency_loop nrm indices p1 p2 rest
        { s with m_point_on_primitive := p1
                 m_base1 := m_base1
                 m_base2 := m_base2 }

/-- `Plane::create_shape(indices)`: fit the plane from the first three
sample indices.  `pt` and `nrm` are the point-cloud accessors
`this->point` and `this->normal`. -/
noncomputable def create_shape (pt nrm : ℕ → Vec3) (indices : List ℕ)
    (s : PlaneState) : PlaneState :=
  let p1 := pt (indices.getD 0 0)
  let p2 := pt (indices.getD 1 0)
  let p3 := pt (indices.getD 2 0)
  let c := Vec3.cross (p1 - p2) (p1 - p3)
  let length := Real.sqrt c.squared_length
  if length < 0.0001 then
    -- early return: `m_normal` already holds the unnormalized cross product
    { s with m_normal := c }
  else
    let m_normal := (1 / length) • c
    let m_d := -(p1.x * m_normal.x + p1.y * m_normal.y + p1.z * m_normal.z)
    consistency_loop nrm indices p1 p2 [0, 1, 2]
      { s with m_normal := m_normal, m_d := m_d }

/-- `Plane::squared_distance(const Point_3 &p)`. -/
def squared_distance (s : PlaneState) (p : Vec3) : ℝ :=
  let d := Vec3.dot (p - s.m_point_on_primitive) s.m_normal
  d * d

/-- Batch `Plane::squared_distance(indices, dists)`: the distances written
into `dists[0 .. indices.size()-1]`, as a list. -/
def squared_distance_batch (pt : ℕ → Vec3) (s : PlaneState)
    (indices : List ℕ) : List ℝ :=
  indices.map fun j =>
    let d := Vec3.dot (pt j - s.m_point_on_primitive) s.m_normal
    d * d

/-- `Plane::cos_to_normal(const Point_3 &p, const Vector_3 &n)`; the
point argument `p` is unused by the plane variant. -/
def cos_to_normal (s : PlaneState) (p n : Vec3) : ℝ :=
  |Vec3.dot n s.m_normal|

/-- Batch `Plane::cos_to_normal(indices, angles)`: the values written into
`angles[0 .. indices.size()-1]`, as a list. -/
def cos_to_normal_batch (nrm : ℕ → Vec3) (s : PlaneState)
    (indices : List ℕ) : List ℝ :=
  indices.map fun j => |Vec3.dot (nrm j) s.m_normal|

/-- The loop of `Plane::parameters` over the tail of the index batch,
threading the entries written so far and the running min/max bounds. -/
def parameters_loop (pt : ℕ → Vec3) (s : PlaneState) :
    List ℕ → List (ℝ × ℝ) → ℝ × ℝ → ℝ × ℝ →
      List (ℝ × ℝ) × (ℝ × ℝ) × (ℝ × ℝ)
  | [], acc, mn, mx => (acc, mn, mx)
  | j :: rest, acc, mn, mx =>
    let p := pt j - s.m_point_on_primitive
    let u := Vec3.dot p s.m_base1
    let v := Vec3.dot p s.m_base2
    parameters_loop pt s rest (acc ++ [(u, v)])
      (min mn.1 u, min mn.2 v) (max mx.1 u, max mx.2 v)

/-- `Plane::parameters(indices, parameterSpace, min, max)`: the entries
written into `parameterSpace`, and the two bound arrays `min`, `max`,
each as a pair.  The first point initializes the bounds before the loop
processes the remaining points.  (On an empty batch the C++ body reads
`indices[0]` out of bounds; the total model returns zeroes there, and the
checked model below refuses.) -/
def parameters (pt : ℕ → Vec3) (s : PlaneState) (indices : List ℕ) :
    List (ℝ × ℝ) × (ℝ × ℝ) × (ℝ × ℝ) :=
  match indices with
  | [] => ([], (0, 0), (0, 0))
  | j0 :: rest =>
    let p := pt j0 - s.m_point_on_primitive
    let u := Vec3.dot p s.m_base1
    let v := Vec3.dot p s.m_base2
    parameters_loop pt s rest [(u, v)] (u, v) (u, v)

/-- The first parameter-space coordinate `u` the parameterization
computes for cloud index `j`. -/
def paramU (pt : ℕ → Vec3) (s : PlaneState) (j : ℕ) : ℝ :=
  Vec3.dot (pt j - s.m_point_on_primitive) s.m_base1

/-- The second parameter-space coordinate `v` the parameterization
computes for cloud index `j`. -/
def paramV (pt : ℕ → Vec3) (s : PlaneState) (j : ℕ) : ℝ :=
  Vec3.dot (pt j - s.m_point_on_primitive) s.m_base2

/-! ### Values computed by `create_shape`, named for use in statements -/

/-- The cross product `cross_product(p1 - p2, p1 - p3)` computed by
`create_shape` from the first three sample indices. -/
def fitted_cross (pt : ℕ → Vec3) (indices : List ℕ) : Vec3 :=
  Vec3.cross (pt (indices.getD 0 0) - pt (indices.getD 1 0))
    (pt (indices.getD 0 0) - pt (indices.getD 2 0))

/-- The normalized plane normal `m_normal` computed by `create_shape`. -/
noncomputable def fitted_normal (pt : ℕ → Vec3) (indices : List ℕ) : Vec3 :=
  (1 / Real.sqrt (fitted_cross pt indices).squared_length) •
    fitted_cross pt indices

/-- The offset `m_d` computed by `create_shape`. -/
noncomputable def fitted_d (pt : ℕ → Vec3) (indices : List ℕ) : ℝ :=
  -(  (pt (indices.getD 0 0)).x * (fitted_normal pt indices).x
    + (pt (indices.getD 0 0)).y * (fitted_normal pt indices).y
    + (pt (indices.getD 0 0)).z * (fitted_normal pt indices).z)

/-- The tangent vector `m_base1` computed by `create_shape`. -/
noncomputable def fitted_base1 (pt : ℕ → Vec3) (indices : List ℕ) : Vec3 :=
  (1 / Real.sqrt
      (Vec3.cross (pt (indices.getD 0 0) - pt (indices.getD 1 0))
        (fitted_normal pt indices)).squared_length) •
    Vec3.cross (pt (indices.getD 0 0) - pt (indices.getD 1 0))
      (fitted_normal pt indices)

/-- The tangent vector `m_base2` computed by `create_shape`. -/
noncomputable def fitted_base2 (pt : ℕ → Vec3) (indices : List ℕ) : Vec3 :=
  (1 / Real.sqrt
      (Vec3.cross (fitted_base1 pt indices)
        (fitted_normal pt indices)).squared_length) •
    Vec3.cross (fitted_base1 pt indices) (fitted_normal pt indices)

/-- The normal-deviation test of the consistency loop: sample counter `i`
fails when `abs(l_v * m_normal) < m_normal_threshold * sqrt(l_v.squared_length())`. -/
noncomputable def deviation_fails (nrm : ℕ → Vec3) (indices : List ℕ)
    (threshold : ℝ) (nml : Vec3) (i : ℕ) : Prop :=
  |Vec3.dot (nrm (indices.getD i 0)) nml| <
    threshold * Real.sqrt (nrm (indices.getD i 0)).squared_length

/-! ### The hoisted variant of `create_shape`

Identical to the reference implementation except that the recomputation of
`m_point_on_primitive`, `m_base1`, `m_base2` is hoisted out of the
consistency-check loop: the loop only tests, and the three fields are
assigned exactly once after it. -/

/-- Consistency-check loop of the hoisted variant: no per-iteration
assignments; the tangent frame is built once, after the last check. -/
noncomputable def consistency_loop_hoisted (nrm : ℕ → Vec3)
    (indices : List ℕ) (p1 p2 : Vec3) : List ℕ → PlaneState → PlaneState
  | [], s =>
    let b1 := Vec3.cross (p1 - p2) s.m_normal
    let m_base1 := (1 / Real.sqrt b1.squared_length) • b1
    let b2 := Vec3.cross m_base1 s.m_normal
    let m_base2 := (1 / Real.sqrt b2.squared_length) • b2
    { s with m_point_on_primitive := p1
             m_base1 := m_base1
             m_base2 := m_base2
             m_is_valid := true }
  | i :: rest, s =>
    let l_v := nrm (indices.getD i 0)
    if |Vec3.dot l_v s.m_normal| <
        s.m_normal_threshold * Real.sqrt l_v.squared_length then
      { s with m_is_valid := false }
    else
      consistency_loop_hoisted nrm indices p1 p2 rest s

/-- `create_shape` with the tangent-frame computation hoisted out of the
loop. -/
noncomputable def create_shape_hoisted (pt nrm : ℕ → Vec3)
    (indices : List ℕ) (s : PlaneState) : PlaneState :=
  let p1 := pt (indices.getD 0 0)
  let p2 := pt (indices.getD 1 0)
  let p3 := pt (indices.getD 2 0)
  let c := Vec3.cross (p1 - p2) (p1 - p3)
  let length := Real.sqrt c.squared_length
  if length < 0.0001 then
    { s with m_normal := c }
  else
    let m_normal := (1 / length) • c
    let m_d := -(p1.x * m_normal.x + p1.y * m_normal.y + p1.z * m_normal.z)
    consistency_loop_hoisted nrm indices p1 p2 [0, 1, 2]
      { s with m_normal := m_normal, m_d := m_d }

/-! ### Bounds-checked variants

Every raw container subscript of the C++ code becomes a checked access
(`l[i]?` for reads, `set_checked` for writes); a variant returns `none`
exactly when some subscript is out of bounds. -/

/-- Checked write `l[i] = x`: fails when `i` is out of bounds. -/
def set_checked {α : Type} (l : List α) (i : ℕ) (x : α) : Option (List α) :=
  if i < l.length then some (l.set i x) else none

/-- Checked consistency loop: the read `indices[i]` is bounds-checked. -/
noncomputable def consistency_loop_checked (nrm : ℕ → Vec3)
    (indices : List ℕ) (p1 p2 : Vec3) :
    List ℕ → PlaneState → Option PlaneState
  | [], s => some { s with m_is_valid := true }
  | i :: rest, s => do
    let idx ← indices[i]?
    let l_v := nrm idx
    if |Vec3.dot l_v s.m_normal| <
        s.m_normal_threshold * Real.sqrt l_v.squared_length then
      some { s with m_is_valid := false }
    else
      let b1 := Vec3.cross (p1 - p2) s.m_normal
      let m_base1 := (1 / Real.sqrt b1.squared_length) • b1
      let b2 := Vec3.cross m_base1 s.m_normal
      let m_base2 := (1 / Real.sqrt b2.squared_length) • b2
      consistency_loop_checked nrm indices p1 p2 rest
        { s with m_point_on_primitive := p1
                 m_base1 := m_base1
                 m_base2 := m_base2 }

/-- Checked `create_shape`: the reads `indices[0]`, `indices[1]`,
`indices[2]` and the loop's `indices[i]` are bounds-checked. -/
noncomputable def create_shape_checked (pt nrm : ℕ → Vec3)
    (indices : List ℕ) (s : PlaneState) : Option PlaneState := do
  let i0 ← indices[0]?
  let i1 ← indices[1]?
  let i2 ← indices[2]?
  let p1 := pt i0
  let p2 := pt i1
  let p3 := pt i2
  let c := Vec3.cross (p1 - p2) (p1 - p3)
  let length := Real.sqrt c.squared_length
  if length < 0.0001 then
    some { s with m_normal := c }
  else
    let m_normal := (1 / length) • c
    let m_d := -(p1.x * m_normal.x + p1.y * m_normal.y + p1.z * m_normal.z)
    consistency_loop_checked nrm indices p1 p2 [0, 1, 2]
      { s with m_normal := m_normal, m_d := m_d }

/-- Checked batch `squared_distance`: the write `dists[i]` is
bounds-checked; `i` counts the position in the batch. -/
def sqdist_loop_checked (pt : ℕ → Vec3) (s : PlaneState) :
    List ℕ → ℕ → List ℝ → Option (List ℝ)
  | [], _, ds => some ds
  | j :: rest, i, ds => do
    let d := Vec3.dot (pt j - s.m_point_on_primitive) s.m_normal
    let ds1 ← set_checked ds i (d * d)
    sqdist_loop_checked pt s rest (i + 1) ds1

/-- Checked batch `squared_distance(indices, dists)`. -/
def squared_distance_batch_checked (pt : ℕ → Vec3) (s : PlaneState)
    (indices : List ℕ) (dists : List ℝ) : Option (List ℝ) :=
  sqdist_loop_checked pt s indices 0 dists

/-- Checked batch `cos_to_normal`: the write `angles[i]` is
bounds-checked. -/
def cos_loop_checked (nrm : ℕ → Vec3) (s : PlaneState) :
    List ℕ → ℕ → List ℝ → Option (List ℝ)
  | [], _, as => some as
  | j :: rest, i, as => do
    let as1 ← set_checked as i |Vec3.dot (nrm j) s.m_normal|
    cos_loop_checked nrm s rest (i + 1) as1

/-- Checked batch `cos_to_normal(indices, angles)`. -/
def cos_to_normal_batch_checked (nrm : ℕ → Vec3) (s : PlaneState)
    (indices : List ℕ) (angles : List ℝ) : Option (List ℝ) :=
  cos_loop_checked nrm s indices 0 angles

/-- Checked `parameters` loop: writes `parameterSpace[i]` checked, reads
`indices[i]` for `1 ≤ i < indices.size()` are the loop elements. -/
def parameters_loop_checked (pt : ℕ → Vec3) (s : PlaneState) :
    List ℕ → ℕ → List (ℝ × ℝ) → ℝ × ℝ → ℝ × ℝ →
      Option (List (ℝ × ℝ) × (ℝ × ℝ) × (ℝ × ℝ))
  | [], _, ps, mn, mx => some (ps, mn, mx)
  | j :: rest, i, ps, mn, mx => do
    let p := pt j - s.m_point_on_primitive
    let u := Vec3.dot p s.m_base1
    let v := Vec3.dot p s.m_base2
    let ps1 ← set_checked ps i (u, v)
    parameters_loop_checked pt s rest (i + 1) ps1
      (min mn.1 u, min mn.2 v) (max mx.1 u, max mx.2 v)

/-- Checked `parameters(indices, parameterSpace, min, max)`: the
unconditional read `indices[0]` and every write `parameterSpace[i]` are
bounds-checked.  `paramSpace` is the caller-allocated output vector. -/
def parameters_checked (pt : ℕ → Vec3) (s : PlaneState) (indices : List ℕ)
    (paramSpace : List (ℝ × ℝ)) :
    Option (List (ℝ × ℝ) × (ℝ × ℝ) × (ℝ × ℝ)) := do
  let j0 ← indices[0]?
  let p := pt j0 - s.m_point_on_primitive
  let u := Vec3.dot p s.m_base1
  let v := Vec3.dot p s.m_base2
  let ps ← set_checked paramSpace 0 (u, v)
  parameters_loop_checked pt s indices.tail 1 ps (u, v) (u, v)

end Plane

/-! ### Concrete point clouds used to instantiate the theorems -/

/-- Sample points `(0,0,0), (1,0,0), (0,1,0)` of the spec's example. -/
def wpt : ℕ → Vec3 := fun j =>
  if j = 0 then ⟨0, 0, 0⟩ else if j = 1 then ⟨1, 0, 0⟩ else ⟨0, 1, 0⟩

/-- All supplied point normals `(0,0,1)`. -/
def wnrm : ℕ → Vec3 := fun _ => ⟨0, 0, 1⟩

/-- Supplied normals where sample 1 carries `(1,0,0)`, orthogonal to the
fitted plane normal, and the others carry `(0,0,1)`. -/
def wnrmBad : ℕ → Vec3 := fun j => if j = 1 then ⟨1, 0, 0⟩ else ⟨0, 0, 1⟩

/-- Like `wnrmBad`, but with a different supplied normal at the later
sample index 2. -/
def wnrmBad2 : ℕ → Vec3 := fun j =>
  if j = 1 then ⟨1, 0, 0⟩ else if j = 2 then ⟨7, 0, 0⟩ else ⟨0, 0, 1⟩

/-- Collinear sample points `(0,0,0), (1,0,0), (2,0,0)`. -/
def wptCol : ℕ → Vec3 := fun j => ⟨(j : ℝ), 0, 0⟩

/-- Sample points `(0,0,1), (1,0,1), (0,1,1)`: a plane through `z = 1`,
whose first sample point differs from the origin. -/
def wptHigh : ℕ → Vec3 := fun j =>
  if j = 0 then ⟨0, 0, 1⟩ else if j = 1 then ⟨1, 0, 1⟩ else ⟨0, 1, 1⟩

/-- The valid plane state produced by `create_shape` on `wpt`/`wnrm`
(the plane `z = 0`), used to instantiate the query theorems. -/
def wstate : PlaneState :=
  { m_point_on_primitive := ⟨0, 0, 0⟩
    m_base1 := ⟨0, 1, 0⟩
    m_base2 := ⟨1, 0, 0⟩
    m_normal := ⟨0, 0, 1⟩
    m_d := 0
    m_normal_threshold := 0.9
    m_is_valid := true }

/-! ## Helper lemmas -/

namespace Vec3

theorem sub_def (a b : Vec3) : a - b = ⟨a.x - b.x, a.y - b.y, a.z - b.z⟩ := rfl

theorem add_def (a b : Vec3) : a + b = ⟨a.x + b.x, a.y + b.y, a.z + b.z⟩ := rfl

theorem smul_def (c : ℝ) (a : Vec3) : c • a = ⟨c * a.x, c * a.y, c * a.z⟩ := rfl

theorem squared_length_nonneg (a : Vec3) : 0 ≤ a.squared_length := by
  unfold squared_length
  nlinarith [sq_nonneg a.x, sq_nonneg a.y, sq_nonneg a.z]

/-- Lagrange's identity for the cross product. -/
theorem cross_squared_length (a b : Vec3) :
    (cross a b).squared_length =
      a.squared_length * b.squared_length - (dot a b) ^ 2 := by
  simp only [cross, squared_length, dot]; ring

theorem dot_cross_left (a b : Vec3) : dot (cross a b) a = 0 := by
  simp only [cross, dot]; ring

theorem dot_cross_right (a b : Vec3) : dot (cross a b) b = 0 := by
  simp only [cross, dot]; ring

theorem dot_smul_left (c : ℝ) (a b : Vec3) : dot (c • a) b = c * dot a b := by
  simp only [smul_def, dot]; ring

theorem dot_smul_right (c : ℝ) (a b : Vec3) : dot a (c • b) = c * dot a b := by
  simp only [smul_def, dot]; ring

theorem dot_comm (a b : Vec3) : dot a b = dot b a := by
  simp only [dot]; ring

theorem squared_length_smul (c : ℝ) (a : Vec3) :
    (c • a).squared_length = c ^ 2 * a.squared_length := by
  simp only [smul_def, squared_length]; ring

theorem squared_length_eq_dot (a : Vec3) : a.squared_length = dot a a := by
  simp only [squared_length, dot]

theorem squared_length_eq_zero_iff (a : Vec3) :
    a.squared_length = 0 ↔ a = ⟨0, 0, 0⟩ := by
  constructor
  · intro h
    have hx : a.x ^ 2 = 0 := by
      simp only [squared_length] at h; nlinarith [sq_nonneg a.y, sq_nonneg a.z]
    have hy : a.y ^ 2 = 0 := by
      simp only [squared_length] at h; nlinarith [sq_nonneg a.x, sq_nonneg a.z]
    have hz : a.z ^ 2 = 0 := by
      simp only [squared_length] at h; nlinarith [sq_nonneg a.x, sq_nonneg a.y]
    cases a
    simp only [Vec3.mk.injEq]
    exact ⟨pow_eq_zero_iff two_ne_zero |>.mp hx,
           pow_eq_zero_iff two_ne_zero |>.mp hy,
           pow_eq_zero_iff two_ne_zero |>.mp hz⟩
  · intro h; subst h; simp [squared_length]

/-- Normalizing a vector of positive squared length yields a unit vector. -/
theorem normalize_squared_length (v : Vec3) (h : 0 < v.squared_length) :
    ((1 / Real.sqrt v.squared_length) • v).squared_length = 1 := by
  rw [squared_length_smul, div_pow, one_pow, Real.sq_sqrt h.le]
  field_simp

theorem cross_sq_pos_left (a b : Vec3)
    (h : 0 < (Vec3.cross a b).squared_length) : 0 < a.squared_length := by
  rcases (squared_length_nonneg a).lt_or_eq with hpos | hzero
  · exact hpos
  · exfalso
    have ha : a = ⟨0, 0, 0⟩ := (squared_length_eq_zero_iff a).mp hzero.symm
    subst ha
    simp [cross, squared_length] at h

/-- Completeness of the orthonormal frame `(b1, b1 × n, n)`: every vector
is the sum of its projections onto the three frame vectors. -/
theorem frame_complete (b1 n : Vec3) (hb1 : b1.squared_length = 1)
    (hn : n.squared_length = 1) (hperp : dot b1 n = 0) (w : Vec3) :
    (dot w b1) • b1 + (dot w (cross b1 n)) • cross b1 n + (dot w n) • n
      = w := by
  have hb2 : (cross b1 n).squared_length = 1 := by
    rw [cross_squared_length, hb1, hn, hperp]; ring
  have h12 : dot (cross b1 n) b1 = 0 := dot_cross_left b1 n
  have h2n : dot (cross b1 n) n = 0 := dot_cross_right b1 n
  simp only [squared_length] at hb1 hn hb2
  simp only [dot] at hperp h12 h2n
  have hMN : (!![b1.x, b1.y, b1.z;
                 (cross b1 n).x, (cross b1 n).y, (cross b1 n).z;
                 n.x, n.y, n.z] : Matrix (Fin 3) (Fin 3) ℝ) *
      !![b1.x, (cross b1 n).x, n.x;
         b1.y, (cross b1 n).y, n.y;
         b1.z, (cross b1 n).z, n.z] = 1 := by
    rw [Matrix.mul_fin_three, Matrix.one_fin_three]
    refine congrArg Matrix.of ?_
    refine Matrix.vec3_eq ?_ ?_ ?_ <;> refine Matrix.vec3_eq ?_ ?_ ?_ <;>
      first
        | linear_combination hb1
        | linear_combination hb2
        | linear_combination hn
        | linear_combination hperp
        | linear_combination h12
        | linear_combination h2n
  have hNM := Matrix.mul_eq_one_comm.mp hMN
  rw [Matrix.mul_fin_three] at hNM
  rw [← Matrix.ext_iff] at hNM
  have e00 := hNM 0 0
  have e10 := hNM 1 0
  have e20 := hNM 2 0
  have e01 := hNM 0 1
  have e11 := hNM 1 1
  have e21 := hNM 2 1
  have e02 := hNM 0 2
  have e12 := hNM 1 2
  have e22 := hNM 2 2
  simp at e00 e10 e20 e01 e11 e21 e02 e12 e22
  cases w with
  | mk wx wy wz =>
    simp only [smul_def, add_def, dot, Vec3.mk.injEq]
    refine ⟨?_, ?_, ?_⟩
    · linear_combination wx * e00 + wy * e10 + wz * e20
    · linear_combination wx * e01 + wy * e11 + wz * e21
    · linear_combination wx * e02 + wy * e12 + wz * e22

end Vec3

namespace Plane

/-! ### Invariance of `m_normal`, `m_d`, `m_normal_threshold` under the loop -/

theorem consistency_loop_m_normal (nrm : ℕ → Vec3) (indices : List ℕ)
    (p1 p2 : Vec3) (L : List ℕ) (s : PlaneState) :
    (consistency_loop nrm indices p1 p2 L s).m_normal = s.m_normal := by
  induction L generalizing s with
  | nil => rfl
  | cons i rest ih =>
    simp only [consistency_loop]
    split
    · rfl
    · rw [ih]

theorem consistency_loop_m_d (nrm : ℕ → Vec3) (indices : List ℕ)
    (p1 p2 : Vec3) (L : List ℕ) (s : PlaneState) :
    (consistency_loop nrm indices p1 p2 L s).m_d = s.m_d := by
  induction L generalizing s with
  | nil => rfl
  | cons i rest ih =>
    simp only [consistency_loop]
    split
    · rfl
    · rw [ih]

theorem consistency_loop_m_normal_threshold (nrm : ℕ → Vec3)
    (indices : List ℕ) (p1 p2 : Vec3) (L : List ℕ) (s : PlaneState) :
    (consistency_loop nrm indices p1 p2 L s).m_normal_threshold =
      s.m_normal_threshold := by
  induction L generalizing s with
  | nil => rfl
  | cons i rest ih =>
    simp only [consistency_loop]
    split
    · rfl
    · rw [ih]

/-! ### Unfolding lemmas for `create_shape` -/

theorem consistency_loop_cons_fail (nrm : ℕ → Vec3) (indices : List ℕ)
    (p1 p2 : Vec3) (i : ℕ) (rest : List ℕ) (s : PlaneState)
    (h : deviation_fails nrm indices s.m_normal_threshold s.m_normal i) :
    consistency_loop nrm indices p1 p2 (i :: rest) s =
      { s with m_is_valid := false } := by
  simp only [deviation_fails] at h
  simp only [consistency_loop]
  rw [if_pos h]

theorem consistency_loop_cons_pass (nrm : ℕ → Vec3) (indices : List ℕ)
    (p1 p2 : Vec3) (i : ℕ) (rest : List ℕ) (s : PlaneState)
    (h : ¬ deviation_fails nrm indices s.m_normal_threshold s.m_normal i) :
    consistency_loop nrm indices p1 p2 (i :: rest) s =
      consistency_loop nrm indices p1 p2 rest
        { s with
            m_point_on_primitive := p1
            m_base1 := (1 / Real.sqrt
                (Vec3.cross (p1 - p2) s.m_normal).squared_length) •
              Vec3.cross (p1 - p2) s.m_normal
            m_base2 := (1 / Real.sqrt
                (Vec3.cross
                  ((1 / Real.sqrt
                      (Vec3.cross (p1 - p2) s.m_normal).squared_length) •
                    Vec3.cross (p1 - p2) s.m_normal)
                  s.m_normal).squared_length) •
              Vec3.cross
                ((1 / Real.sqrt
                    (Vec3.cross (p1 - p2) s.m_normal).squared_length) •
                  Vec3.cross (p1 - p2) s.m_normal)
                s.m_normal } := by
  simp only [deviation_fails] at h
  simp only [consistency_loop]
  rw [if_neg h]

theorem create_shape_degenerate (pt nrm : ℕ → Vec3) (indices : List ℕ)
    (s : PlaneState)
    (h : Real.sqrt (fitted_cross pt indices).squared_length < 0.0001) :
    create_shape pt nrm indices s =
      { s with m_normal := fitted_cross pt indices } := by
  simp only [fitted_cross] at h
  simp only [create_shape]
  rw [if_pos h]
  rfl

theorem create_shape_nondegenerate (pt nrm : ℕ → Vec3) (indices : List ℕ)
    (s : PlaneState)
    (h : ¬ Real.sqrt (fitted_cross pt indices).squared_length < 0.0001) :
    create_shape pt nrm indices s =
      consistency_loop nrm indices (pt (indices.getD 0 0))
        (pt (indices.getD 1 0)) [0, 1, 2]
        { s with
            m_normal := fitted_normal pt indices
            m_d := fitted_d pt indices } := by
  simp only [fitted_cross] at h
  simp only [create_shape]
  rw [if_neg h]
  rfl

/-- A run of `create_shape` in which the degeneracy check and all three
deviation checks pass: every field of the result, explicitly. -/
theorem create_shape_all_pass (pt nrm : ℕ → Vec3) (indices : List ℕ)
    (s : PlaneState)
    (hlen : ¬ Real.sqrt (fitted_cross pt indices).squared_length < 0.0001)
    (h0 : ¬ deviation_fails nrm indices s.m_normal_threshold
      (fitted_normal pt indices) 0)
    (h1 : ¬ deviation_fails nrm indices s.m_normal_threshold
      (fitted_normal pt indices) 1)
    (h2 : ¬ deviation_fails nrm indices s.m_normal_threshold
      (fitted_normal pt indices) 2) :
    create_shape pt nrm indices s =
      { m_point_on_primitive := pt (indices.getD 0 0)
        m_base1 := fitted_base1 pt indices
        m_base2 := fitted_base2 pt indices
        m_normal := fitted_normal pt indices
        m_d := fitted_d pt indices
        m_normal_threshold := s.m_normal_threshold
        m_is_valid := true } := by
  rw [create_shape_nondegenerate pt nrm indices s hlen]
  rw [consistency_loop_cons_pass nrm indices _ _ 0 [1, 2] _ h0]
  rw [consistency_loop_cons_pass nrm indices _ _ 1 [2] _ h1]
  rw [consistency_loop_cons_pass nrm indices _ _ 2 [] _ h2]
  rfl

/-! ### Geometric facts about the fitted frame -/

theorem fitted_cross_sq_pos (pt : ℕ → Vec3) (indices : List ℕ)
    (hlen : ¬ Real.sqrt (fitted_cross pt indices).squared_length < 0.0001) :
    0 < (fitted_cross pt indices).squared_length := by
  by_contra h
  push_neg at h
  have h0 : (fitted_cross pt indices).squared_length = 0 :=
    le_antisymm h (Vec3.squared_length_nonneg _)
  apply hlen
  rw [h0, Real.sqrt_zero]
  norm_num

theorem fitted_normal_sq (pt : ℕ → Vec3) (indices : List ℕ)
    (hc : 0 < (fitted_cross pt indices).squared_length) :
    (fitted_normal pt indices).squared_length = 1 := by
  rw [fitted_normal]
  exact Vec3.normalize_squared_length _ hc

theorem fitted_normal_dot_sub1 (pt : ℕ → Vec3) (indices : List ℕ) :
    Vec3.dot (fitted_normal pt indices)
      (pt (indices.getD 0 0) - pt (indices.getD 1 0)) = 0 := by
  simp only [fitted_normal, fitted_cross]
  rw [Vec3.dot_smul_left, Vec3.dot_cross_left]
  ring

theorem fitted_normal_dot_sub2 (pt : ℕ → Vec3) (indices : List ℕ) :
    Vec3.dot (fitted_normal pt indices)
      (pt (indices.getD 0 0) - pt (indices.getD 2 0)) = 0 := by
  simp only [fitted_normal, fitted_cross]
  rw [Vec3.dot_smul_left, Vec3.dot_cross_right]
  ring

theorem fitted_base1_cross_sq (pt : ℕ → Vec3) (indices : List ℕ)
    (hc : 0 < (fitted_cross pt indices).squared_length) :
    0 < (Vec3.cross (pt (indices.getD 0 0) - pt (indices.getD 1 0))
      (fitted_normal pt indices)).squared_length := by
  rw [Vec3.cross_squared_length]
  have ha : 0 < (pt (indices.getD 0 0) - pt (indices.getD 1 0)).squared_length := by
    have := Vec3.cross_sq_pos_left _ _ hc
    simpa [fitted_cross] using this
  have hd : Vec3.dot (pt (indices.getD 0 0) - pt (indices.getD 1 0))
      (fitted_normal pt indices) = 0 := by
    rw [Vec3.dot_comm]
    exact fitted_normal_dot_sub1 pt indices
  rw [hd, fitted_normal_sq pt indices hc]
  simpa using ha

theorem fitted_base1_sq (pt : ℕ → Vec3) (indices : List ℕ)
    (hc : 0 < (fitted_cross pt indices).squared_length) :
    (fitted_base1 pt indices).squared_length = 1 := by
  rw [fitted_base1]
  exact Vec3.normalize_squared_length _ (fitted_base1_cross_sq pt indices hc)

theorem fitted_base1_dot_normal (pt : ℕ → Vec3) (indices : List ℕ) :
    Vec3.dot (fitted_base1 pt indices) (fitted_normal pt indices) = 0 := by
  simp only [fitted_base1]
  rw [Vec3.dot_smul_left, Vec3.dot_cross_right]
  ring

theorem fitted_base2_cross_sq (pt : ℕ → Vec3) (indices : List ℕ)
    (hc : 0 < (fitted_cross pt indices).squared_length) :
    (Vec3.cross (fitted_base1 pt indices)
      (fitted_normal pt indices)).squared_length = 1 := by
  rw [Vec3.cross_squared_length, fitted_base1_sq pt indices hc,
    fitted_normal_sq pt indices hc, fitted_base1_dot_normal]
  ring

theorem fitted_base2_eq (pt : ℕ → Vec3) (indices : List ℕ)
    (hc : 0 < (fitted_cross pt indices).squared_length) :
    fitted_base2 pt indices =
      Vec3.cross (fitted_base1 pt indices) (fitted_normal pt indices) := by
  rw [fitted_base2, fitted_base2_cross_sq pt indices hc, Real.sqrt_one]
  cases h : Vec3.cross (fitted_base1 pt indices) (fitted_normal pt indices)
  simp [Vec3.smul_def]

theorem fitted_base2_sq (pt : ℕ → Vec3) (indices : List ℕ)
    (hc : 0 < (fitted_cross pt indices).squared_length) :
    (fitted_base2 pt indices).squared_length = 1 := by
  rw [fitted_base2_eq pt indices hc]
  exact fitted_base2_cross_sq pt indices hc

theorem fitted_base2_dot_normal (pt : ℕ → Vec3) (indices : List ℕ)
    (hc : 0 < (fitted_cross pt indices).squared_length) :
    Vec3.dot (fitted_base2 pt indices) (fitted_normal pt indices) = 0 := by
  rw [fitted_base2_eq pt indices hc]
  exact Vec3.dot_cross_right _ _

theorem fitted_base2_dot_base1 (pt : ℕ → Vec3) (indices : List ℕ)
    (hc : 0 < (fitted_cross pt indices).squared_length) :
    Vec3.dot (fitted_base2 pt indices) (fitted_base1 pt indices) = 0 := by
  rw [fitted_base2_eq pt indices hc]
  exact Vec3.dot_cross_left _ _

theorem fitted_d_eq (pt : ℕ → Vec3) (indices : List ℕ) :
    fitted_d pt indices =
      -(Vec3.dot (pt (indices.getD 0 0)) (fitted_normal pt indices)) := by
  simp only [fitted_d, Vec3.dot]

/-- The deviation test of sample counter `i` depends on the supplied
normals only through the normal of `indices[i]`. -/
theorem deviation_fails_congr (nrm nrm' : ℕ → Vec3) (indices : List ℕ)
    (threshold : ℝ) (nml : Vec3) (i : ℕ)
    (h : nrm (indices.getD i 0) = nrm' (indices.getD i 0)) :
    deviation_fails nrm indices threshold nml i ↔
      deviation_fails nrm' indices threshold nml i := by
  simp only [deviation_fails, h]

/-- Dissection of a run of `create_shape` that ends valid (from a start
state that is not yet valid): the degeneracy check passed and every field
of the result is the fitted one. -/
theorem create_shape_valid_structure (pt nrm : ℕ → Vec3) (indices : List ℕ)
    (s : PlaneState) (hs : s.m_is_valid = false)
    (hval : (create_shape pt nrm indices s).m_is_valid = true) :
    ¬ Real.sqrt (fitted_cross pt indices).squared_length < 0.0001 ∧
    create_shape pt nrm indices s =
      { m_point_on_primitive := pt (indices.getD 0 0)
        m_base1 := fitted_base1 pt indices
        m_base2 := fitted_base2 pt indices
        m_normal := fitted_normal pt indices
        m_d := fitted_d pt indices
        m_normal_threshold := s.m_normal_threshold
        m_is_valid := true } := by
  by_cases hlen : Real.sqrt (fitted_cross pt indices).squared_length < 0.0001
  · rw [create_shape_degenerate pt nrm indices s hlen] at hval
    rw [hs] at hval
    exact absurd hval (by simp)
  · by_cases h0 : deviation_fails nrm indices s.m_normal_threshold
      (fitted_normal pt indices) 0
    · rw [create_shape_nondegenerate pt nrm indices s hlen,
        consistency_loop_cons_fail nrm indices _ _ 0 [1, 2] _ h0] at hval
      exact absurd hval (by simp)
    · by_cases h1 : deviation_fails nrm indices s.m_normal_threshold
        (fitted_normal pt indices) 1
      · rw [create_shape_nondegenerate pt nrm indices s hlen,
          consistency_loop_cons_pass nrm indices _ _ 0 [1, 2] _ h0,
          consistency_loop_cons_fail nrm indices _ _ 1 [2] _ h1] at hval
        exact absurd hval (by simp)
      · by_cases h2 : deviation_fails nrm indices s.m_normal_threshold
          (fitted_normal pt indices) 2
        · rw [create_shape_nondegenerate pt nrm indices s hlen,
            consistency_loop_cons_pass nrm indices _ _ 0 [1, 2] _ h0,
            consistency_loop_cons_pass nrm indices _ _ 1 [2] _ h1,
            consistency_loop_cons_fail nrm indices _ _ 2 [] _ h2] at hval
          exact absurd hval (by simp)
        · exact ⟨hlen, create_shape_all_pass pt nrm indices s hlen h0 h1 h2⟩

end Plane

/-! ### Evaluation of the run on the spec's example inputs -/

theorem wpt_fitted_cross : Plane.fitted_cross wpt [0, 1, 2] = ⟨0, 0, 1⟩ := by
  simp only [Plane.fitted_cross, wpt, List.getD]
  norm_num [Vec3.sub_def, Vec3.cross]

theorem wpt_fitted_cross_sq :
    (Plane.fitted_cross wpt [0, 1, 2]).squared_length = 1 := by
  rw [wpt_fitted_cross]
  norm_num [Vec3.squared_length]

theorem wpt_fitted_normal : Plane.fitted_normal wpt [0, 1, 2] = ⟨0, 0, 1⟩ := by
  rw [Plane.fitted_normal, wpt_fitted_cross_sq, wpt_fitted_cross,
    Real.sqrt_one]
  norm_num [Vec3.smul_def]

theorem wpt_nondegenerate :
    ¬ Real.sqrt (Plane.fitted_cross wpt [0, 1, 2]).squared_length < 0.0001 := by
  rw [wpt_fitted_cross_sq, Real.sqrt_one]
  norm_num

theorem wnrm_all_pass (i : ℕ) :
    ¬ Plane.deviation_fails wnrm [0, 1, 2] (0.9 : ℝ)
      (Plane.fitted_normal wpt [0, 1, 2]) i := by
  simp only [Plane.deviation_fails, wpt_fitted_normal, wnrm]
  norm_num [Vec3.dot, Vec3.squared_length]

theorem wpt_fitted_base1 : Plane.fitted_base1 wpt [0, 1, 2] = ⟨0, 1, 0⟩ := by
  have hcr : Vec3.cross (wpt (([0, 1, 2] : List ℕ).getD 0 0) -
      wpt (([0, 1, 2] : List ℕ).getD 1 0)) (Plane.fitted_normal wpt [0, 1, 2]) =
      ⟨0, 1, 0⟩ := by
    rw [wpt_fitted_normal]
    simp only [wpt, List.getD]
    norm_num [Vec3.sub_def, Vec3.cross]
  rw [Plane.fitted_base1, hcr]
  norm_num [Vec3.squared_length, Vec3.smul_def]

theorem wpt_fitted_base2 : Plane.fitted_base2 wpt [0, 1, 2] = ⟨1, 0, 0⟩ := by
  rw [Plane.fitted_base2, wpt_fitted_base1, wpt_fitted_normal]
  norm_num [Vec3.cross, Vec3.squared_length, Vec3.smul_def]

theorem wpt_fitted_d : Plane.fitted_d wpt [0, 1, 2] = 0 := by
  rw [Plane.fitted_d_eq, wpt_fitted_normal]
  simp only [wpt, List.getD]
  norm_num [Vec3.dot]

/-- The full result of `create_shape` on the spec's example. -/
theorem wpt_create_shape :
    Plane.create_shape wpt wnrm [0, 1, 2] (PlaneState.init 0.9) =
      { m_point_on_primitive := ⟨0, 0, 0⟩
        m_base1 := ⟨0, 1, 0⟩
        m_base2 := ⟨1, 0, 0⟩
        m_normal := ⟨0, 0, 1⟩
        m_d := 0
        m_normal_threshold := 0.9
        m_is_valid := true } := by
  rw [Plane.create_shape_all_pass wpt wnrm [0, 1, 2] (PlaneState.init 0.9)
    wpt_nondegenerate (wnrm_all_pass 0) (wnrm_all_pass 1) (wnrm_all_pass 2)]
  rw [wpt_fitted_base1, wpt_fitted_base2, wpt_fitted_normal, wpt_fitted_d]
  simp only [wpt, List.getD]
  norm_num [PlaneState.init]

/-! ## The claims -/

/-- C1: for any three sample points whose cross product has length at
least `1e-4`, and whose three supplied point normals each satisfy
`|n_i · normal| ≥ normal_consistency_threshold * |n_i|` against the
fitted plane normal, `create_shape` sets `is_valid = true`, the stored
normal has unit length within `1e-6`, and the signed distance
`(p_i - anchor_point) · normal` of each of the three sample points is
within `1e-6` of zero. -/
theorem C1_minimal_fit_valid (pt nrm : ℕ → Vec3) (indices : List ℕ)
    (threshold : ℝ)
    (hlen : (0.0001 : ℝ) ≤
      Real.sqrt (Plane.fitted_cross pt indices).squared_length)
    (hcons : ∀ i, i < 3 →
      threshold * Real.sqrt (nrm (indices.getD i 0)).squared_length ≤
        |Vec3.dot (nrm (indices.getD i 0)) (Plane.fitted_normal pt indices)|) :
    (Plane.create_shape pt nrm indices
        (PlaneState.init threshold)).m_is_valid = true ∧
    |(Plane.create_shape pt nrm indices
        (PlaneState.init threshold)).m_normal.length - 1| ≤ 1e-6 ∧
    ∀ i, i < 3 →
      |Vec3.dot (pt (indices.getD i 0) -
          (Plane.create_shape pt nrm indices
            (PlaneState.init threshold)).m_point_on_primitive)
        (Plane.create_shape pt nrm indices
          (PlaneState.init threshold)).m_normal| ≤ 1e-6 := by
  have hlen' : ¬ Real.sqrt (Plane.fitted_cross pt indices).squared_length
      < 0.0001 := not_lt.mpr hlen
  have hc := Plane.fitted_cross_sq_pos pt indices hlen'
  have h0 : ¬ Plane.deviation_fails nrm indices threshold
      (Plane.fitted_normal pt indices) 0 := by
    simp only [Plane.deviation_fails]
    exact not_lt.mpr (hcons 0 (by norm_num))
  have h1 : ¬ Plane.deviation_fails nrm indices threshold
      (Plane.fitted_normal pt indices) 1 := by
    simp only [Plane.deviation_fails]
    exact not_lt.mpr (hcons 1 (by norm_num))
  have h2 : ¬ Plane.deviation_fails nrm indices threshold
      (Plane.fitted_normal pt indices) 2 := by
    simp only [Plane.deviation_fails]
    exact not_lt.mpr (hcons 2 (by norm_num))
  rw [Plane.create_shape_all_pass pt nrm indices (PlaneState.init threshold)
    hlen' h0 h1 h2]
  refine ⟨rfl, ?_, ?_⟩
  · show |(Plane.fitted_normal pt indices).length - 1| ≤ 1e-6
    rw [Vec3.length, Plane.fitted_normal_sq pt indices hc, Real.sqrt_one]
    norm_num
  · intro i hi
    interval_cases i
    · show |Vec3.dot (pt (indices.getD 0 0) - pt (indices.getD 0 0))
        (Plane.fitted_normal pt indices)| ≤ 1e-6
      have hz : Vec3.dot (pt (indices.getD 0 0) - pt (indices.getD 0 0))
          (Plane.fitted_normal pt indices) = 0 := by
        simp only [Vec3.dot, Vec3.sub_def]
        ring
      rw [hz]
      norm_num
    · show |Vec3.dot (pt (indices.getD 1 0) - pt (indices.getD 0 0))
        (Plane.fitted_normal pt indices)| ≤ 1e-6
      have hd := Plane.fitted_normal_dot_sub1 pt indices
      have hz : Vec3.dot (pt (indices.getD 1 0) - pt (indices.getD 0 0))
          (Plane.fitted_normal pt indices) = 0 := by
        simp only [Vec3.dot, Vec3.sub_def] at hd ⊢
        linear_combination -hd
      rw [hz]
      norm_num
    · show |Vec3.dot (pt (indices.getD 2 0) - pt (indices.getD 0 0))
        (Plane.fitted_normal pt indices)| ≤ 1e-6
      have hd := Plane.fitted_normal_dot_sub2 pt indices
      have hz : Vec3.dot (pt (indices.getD 2 0) - pt (indices.getD 0 0))
          (Plane.fitted_normal pt indices) = 0 := by
        simp only [Vec3.dot, Vec3.sub_def] at hd ⊢
        linear_combination -hd
      rw [hz]
      norm_num

/-- Witness for C1: the spec's example sample `(0,0,0), (1,0,0), (0,1,0)`
with all supplied normals `(0,0,1)` and threshold `0.9` satisfies both
hypotheses, and the conclusions hold there. -/
theorem C1_minimal_fit_valid_witness :
    ((0.0001 : ℝ) ≤
      Real.sqrt (Plane.fitted_cross wpt [0, 1, 2]).squared_length) ∧
    (∀ i, i < 3 →
      (0.9 : ℝ) * Real.sqrt
          (wnrm (([0, 1, 2] : List ℕ).getD i 0)).squared_length ≤
        |Vec3.dot (wnrm (([0, 1, 2] : List ℕ).getD i 0))
          (Plane.fitted_normal wpt [0, 1, 2])|) ∧
    (Plane.create_shape wpt wnrm [0, 1, 2]
        (PlaneState.init 0.9)).m_is_valid = true ∧
    |(Plane.create_shape wpt wnrm [0, 1, 2]
        (PlaneState.init 0.9)).m_normal.length - 1| ≤ 1e-6 ∧
    ∀ i, i < 3 →
      |Vec3.dot (wpt (([0, 1, 2] : List ℕ).getD i 0) -
          (Plane.create_shape wpt wnrm [0, 1, 2]
            (PlaneState.init 0.9)).m_point_on_primitive)
        (Plane.create_shape wpt wnrm [0, 1, 2]
          (PlaneState.init 0.9)).m_normal| ≤ 1e-6 := by
  have hlen : (0.0001 : ℝ) ≤
      Real.sqrt (Plane.fitted_cross wpt [0, 1, 2]).squared_length := by
    rw [wpt_fitted_cross_sq, Real.sqrt_one]
    norm_num
  have hcons : ∀ i, i < 3 →
      (0.9 : ℝ) * Real.sqrt
          (wnrm (([0, 1, 2] : List ℕ).getD i 0)).squared_length ≤
        |Vec3.dot (wnrm (([0, 1, 2] : List ℕ).getD i 0))
          (Plane.fitted_normal wpt [0, 1, 2])| := by
    intro i hi
    have := wnrm_all_pass (([0, 1, 2] : List ℕ).getD i 0)
    simp only [Plane.deviation_fails, wnrm] at this ⊢
    rw [wpt_fitted_normal] at this ⊢
    norm_num [Vec3.dot, Vec3.squared_length] at this ⊢
  have hmain := C1_minimal_fit_valid wpt wnrm [0, 1, 2] 0.9 hlen hcons
  exact ⟨hlen, hcons, hmain⟩

/-- C2: for any three coincident or collinear sample points — whenever
`|cross(p1-p2, p1-p3)| < 1e-4` — `create_shape` leaves `is_valid = false`,
regardless of the supplied point normals and of the threshold. -/
theorem C2_degenerate_invalid (pt nrm : ℕ → Vec3) (indices : List ℕ)
    (threshold : ℝ)
    (h : Real.sqrt (Plane.fitted_cross pt indices).squared_length < 0.0001) :
    (Plane.create_shape pt nrm indices
      (PlaneState.init threshold)).m_is_valid = false := by
  rw [Plane.create_shape_degenerate pt nrm indices _ h]
  rfl

/-- Witness for C2: the collinear sample `(0,0,0), (1,0,0), (2,0,0)`
(whatever the normals and threshold, here `(0,0,1)` and `0.9`) satisfies
the degeneracy hypothesis and yields `is_valid = false`. -/
theorem C2_degenerate_invalid_witness :
    (Real.sqrt (Plane.fitted_cross wptCol [0, 1, 2]).squared_length
      < 0.0001) ∧
    (Plane.create_shape wptCol wnrm [0, 1, 2]
      (PlaneState.init 0.9)).m_is_valid = false := by
  have hdeg : Real.sqrt
      (Plane.fitted_cross wptCol [0, 1, 2]).squared_length < 0.0001 := by
    have hcr : Plane.fitted_cross wptCol [0, 1, 2] = ⟨0, 0, 0⟩ := by
      simp only [Plane.fitted_cross, wptCol, List.getD]
      norm_num [Vec3.sub_def, Vec3.cross]
    rw [hcr]
    norm_num [Vec3.squared_length]
  exact ⟨hdeg, C2_degenerate_invalid wptCol wnrm [0, 1, 2] 0.9 hdeg⟩

set_option maxHeartbeats 1600000 in
/-- C3: on a non-degenerate sample, if sample point `i < 3` fails the
normal-consistency test then `create_shape` ends with `is_valid = false`;
moreover, when `i` is the first failing sample the run stops there, so the
result does not depend on the supplied normals of the later sample
indices. -/
theorem C3_consistency_short_circuit (pt nrm : ℕ → Vec3) (indices : List ℕ)
    (threshold : ℝ)
    (hlen : ¬ Real.sqrt (Plane.fitted_cross pt indices).squared_length
      < 0.0001) :
    (∀ i, i < 3 →
      Plane.deviation_fails nrm indices threshold
        (Plane.fitted_normal pt indices) i →
      (Plane.create_shape pt nrm indices
        (PlaneState.init threshold)).m_is_valid = false) ∧
    (∀ i, i < 3 →
      Plane.deviation_fails nrm indices threshold
        (Plane.fitted_normal pt indices) i →
      (∀ j, j < i → ¬ Plane.deviation_fails nrm indices threshold
        (Plane.fitted_normal pt indices) j) →
      ∀ nrm' : ℕ → Vec3,
        (∀ j, j ≤ i → nrm (indices.getD j 0) = nrm' (indices.getD j 0)) →
        Plane.create_shape pt nrm indices (PlaneState.init threshold) =
          Plane.create_shape pt nrm' indices (PlaneState.init threshold)) := by
  constructor
  · intro i hi hfail
    interval_cases i
    · rw [Plane.create_shape_nondegenerate pt nrm indices _ hlen,
        Plane.consistency_loop_cons_fail nrm indices _ _ 0 [1, 2] _ hfail]
    · by_cases h0 : Plane.deviation_fails nrm indices threshold
        (Plane.fitted_normal pt indices) 0
      · rw [Plane.create_shape_nondegenerate pt nrm indices _ hlen,
          Plane.consistency_loop_cons_fail nrm indices _ _ 0 [1, 2] _ h0]
      · rw [Plane.create_shape_nondegenerate pt nrm indices _ hlen,
          Plane.consistency_loop_cons_pass nrm indices _ _ 0 [1, 2] _ h0,
          Plane.consistency_loop_cons_fail nrm indices _ _ 1 [2] _ hfail]
    · by_cases h0 : Plane.deviation_fails nrm indices threshold
        (Plane.fitted_normal pt indices) 0
      · rw [Plane.create_shape_nondegenerate pt nrm indices _ hlen,
          Plane.consistency_loop_cons_fail nrm indices _ _ 0 [1, 2] _ h0]
      · by_cases h1 : Plane.deviation_fails nrm indices threshold
          (Plane.fitted_normal pt indices) 1
        · rw [Plane.create_shape_nondegenerate pt nrm indices _ hlen,
            Plane.consistency_loop_cons_pass nrm indices _ _ 0 [1, 2] _ h0,
            Plane.consistency_loop_cons_fail nrm indices _ _ 1 [2] _ h1]
        · rw [Plane.create_shape_nondegenerate pt nrm indices _ hlen,
            Plane.consistency_loop_cons_pass nrm indices _ _ 0 [1, 2] _ h0,
            Plane.consistency_loop_cons_pass nrm indices _ _ 1 [2] _ h1,
            Plane.consistency_loop_cons_fail nrm indices _ _ 2 [] _ hfail]
  · intro i hi hfail hfirst nrm' hagree
    interval_cases i
    · have hfail' := (Plane.deviation_fails_congr nrm nrm' indices threshold
        (Plane.fitted_normal pt indices) 0 (hagree 0 le_rfl)).mp hfail
      rw [Plane.create_shape_nondegenerate pt nrm indices _ hlen,
        Plane.create_shape_nondegenerate pt nrm' indices _ hlen,
        Plane.consistency_loop_cons_fail nrm indices _ _ 0 [1, 2] _ hfail,
        Plane.consistency_loop_cons_fail nrm' indices _ _ 0 [1, 2] _ hfail']
    · have h0 := hfirst 0 (by norm_num)
      have h0' := fun hf => h0 ((Plane.deviation_fails_congr nrm nrm' indices
        threshold (Plane.fitted_normal pt indices) 0
        (hagree 0 (by norm_num))).mpr hf)
      have hfail' := (Plane.deviation_fails_congr nrm nrm' indices threshold
        (Plane.fitted_normal pt indices) 1 (hagree 1 le_rfl)).mp hfail
      rw [Plane.create_shape_nondegenerate pt nrm indices _ hlen,
        Plane.create_shape_nondegenerate pt nrm' indices _ hlen,
        Plane.consistency_loop_cons_pass nrm indices _ _ 0 [1, 2] _ h0,
        Plane.consistency_loop_cons_pass nrm' indices _ _ 0 [1, 2] _ h0',
        Plane.consistency_loop_cons_fail nrm indices _ _ 1 [2] _ hfail,
        Plane.consistency_loop_cons_fail nrm' indices _ _ 1 [2] _ hfail']
    · have h0 := hfirst 0 (by norm_num)
      have h0' := fun hf => h0 ((Plane.deviation_fails_congr nrm nrm' indices
        threshold (Plane.fitted_normal pt indices) 0
        (hagree 0 (by norm_num))).mpr hf)
      have h1 := hfirst 1 (by norm_num)
      have h1' := fun hf => h1 ((Plane.deviation_fails_congr nrm nrm' indices
        threshold (Plane.fitted_normal pt indices) 1
        (hagree 1 (by norm_num))).mpr hf)
      have hfail' := (Plane.deviation_fails_congr nrm nrm' indices threshold
        (Plane.fitted_normal pt indices) 2 (hagree 2 le_rfl)).mp hfail
      rw [Plane.create_shape_nondegenerate pt nrm indices _ hlen,
        Plane.create_shape_nondegenerate pt nrm' indices _ hlen,
        Plane.consistency_loop_cons_pass nrm indices _ _ 0 [1, 2] _ h0,
        Plane.consistency_loop_cons_pass nrm' indices _ _ 0 [1, 2] _ h0',
        Plane.consistency_loop_cons_pass nrm indices _ _ 1 [2] _ h1,
        Plane.consistency_loop_cons_pass nrm' indices _ _ 1 [2] _ h1',
        Plane.consistency_loop_cons_fail nrm indices _ _ 2 [] _ hfail,
        Plane.consistency_loop_cons_fail nrm' indices _ _ 2 [] _ hfail']

/-- Witness for C3: the sample `(0,0,0), (1,0,0), (0,1,0)` with supplied
normal `(1,0,0)` at sample 1 and threshold `0.9` fails the test at the
first failing index 1, yields `is_valid = false`, and changing the
supplied normal of the later sample index 2 does not change the result. -/
theorem C3_consistency_short_circuit_witness :
    (¬ Real.sqrt (Plane.fitted_cross wpt [0, 1, 2]).squared_length
      < 0.0001) ∧
    Plane.deviation_fails wnrmBad [0, 1, 2] (0.9 : ℝ)
      (Plane.fitted_normal wpt [0, 1, 2]) 1 ∧
    (∀ j, j < 1 → ¬ Plane.deviation_fails wnrmBad [0, 1, 2] (0.9 : ℝ)
      (Plane.fitted_normal wpt [0, 1, 2]) j) ∧
    (∀ j, j ≤ 1 → wnrmBad (([0, 1, 2] : List ℕ).getD j 0) =
      wnrmBad2 (([0, 1, 2] : List ℕ).getD j 0)) ∧
    (Plane.create_shape wpt wnrmBad [0, 1, 2]
      (PlaneState.init 0.9)).m_is_valid = false ∧
    Plane.create_shape wpt wnrmBad [0, 1, 2] (PlaneState.init 0.9) =
      Plane.create_shape wpt wnrmBad2 [0, 1, 2] (PlaneState.init 0.9) := by
  have hfail : Plane.deviation_fails wnrmBad [0, 1, 2] (0.9 : ℝ)
      (Plane.fitted_normal wpt [0, 1, 2]) 1 := by
    simp only [Plane.deviation_fails, wpt_fitted_normal, wnrmBad, List.getD]
    norm_num [Vec3.dot, Vec3.squared_length]
  have hfirst : ∀ j, j < 1 → ¬ Plane.deviation_fails wnrmBad [0, 1, 2]
      (0.9 : ℝ) (Plane.fitted_normal wpt [0, 1, 2]) j := by
    intro j hj
    interval_cases j
    simp only [Plane.deviation_fails, wpt_fitted_normal, wnrmBad, List.getD]
    norm_num [Vec3.dot, Vec3.squared_length]
  have hagree : ∀ j, j ≤ 1 → wnrmBad (([0, 1, 2] : List ℕ).getD j 0) =
      wnrmBad2 (([0, 1, 2] : List ℕ).getD j 0) := by
    intro j hj
    interval_cases j <;> norm_num [wnrmBad, wnrmBad2, List.getD]
  obtain ⟨hinv, hind⟩ := C3_consistency_short_circuit wpt wnrmBad [0, 1, 2]
    0.9 wpt_nondegenerate
  exact ⟨wpt_nondegenerate, hfail, hfirst, hagree,
    hinv 1 (by norm_num) hfail,
    hind 1 (by norm_num) hfail hfirst wnrmBad2 hagree⟩

/-- C4: whenever `create_shape` ends with `is_valid = true`, the stored
normal has unit length, `normal · anchor_point + offset = 0`, and
`basis1`, `basis2`, `normal` are pairwise orthogonal and all of unit
length. -/
theorem C4_valid_invariants (pt nrm : ℕ → Vec3) (indices : List ℕ)
    (threshold : ℝ)
    (hval : (Plane.create_shape pt nrm indices
      (PlaneState.init threshold)).m_is_valid = true) :
    (Plane.create_shape pt nrm indices
        (PlaneState.init threshold)).m_normal.length = 1 ∧
    Vec3.dot (Plane.create_shape pt nrm indices
          (PlaneState.init threshold)).m_normal
        (Plane.create_shape pt nrm indices
          (PlaneState.init threshold)).m_point_on_primitive +
      (Plane.create_shape pt nrm indices (PlaneState.init threshold)).m_d
      = 0 ∧
    Vec3.dot (Plane.create_shape pt nrm indices
        (PlaneState.init threshold)).m_base1
      (Plane.create_shape pt nrm indices
        (PlaneState.init threshold)).m_base2 = 0 ∧
    Vec3.dot (Plane.create_shape pt nrm indices
        (PlaneState.init threshold)).m_base1
      (Plane.create_shape pt nrm indices
        (PlaneState.init threshold)).m_normal = 0 ∧
    Vec3.dot (Plane.create_shape pt nrm indices
        (PlaneState.init threshold)).m_base2
      (Plane.create_shape pt nrm indices
        (PlaneState.init threshold)).m_normal = 0 ∧
    (Plane.create_shape pt nrm indices
        (PlaneState.init threshold)).m_base1.length = 1 ∧
    (Plane.create_shape pt nrm indices
        (PlaneState.init threshold)).m_base2.length = 1 := by
  obtain ⟨hlen, heq⟩ := Plane.create_shape_valid_structure pt nrm indices
    (PlaneState.init threshold) rfl hval
  have hc := Plane.fitted_cross_sq_pos pt indices hlen
  rw [heq]
  refine ⟨?_, ?_, ?_, ?_, ?_, ?_, ?_⟩
  · show (Plane.fitted_normal pt indices).length = 1
    rw [Vec3.length, Plane.fitted_normal_sq pt indices hc, Real.sqrt_one]
  · show Vec3.dot (Plane.fitted_normal pt indices) (pt (indices.getD 0 0)) +
      Plane.fitted_d pt indices = 0
    rw [Plane.fitted_d_eq,
      Vec3.dot_comm (Plane.fitted_normal pt indices) (pt (indices.getD 0 0))]
    ring
  · show Vec3.dot (Plane.fitted_base1 pt indices)
      (Plane.fitted_base2 pt indices) = 0
    rw [Vec3.dot_comm]
    exact Plane.fitted_base2_dot_base1 pt indices hc
  · show Vec3.dot (Plane.fitted_base1 pt indices)
      (Plane.fitted_normal pt indices) = 0
    exact Plane.fitted_base1_dot_normal pt indices
  · show Vec3.dot (Plane.fitted_base2 pt indices)
      (Plane.fitted_normal pt indices) = 0
    exact Plane.fitted_base2_dot_normal pt indices hc
  · show (Plane.fitted_base1 pt indices).length = 1
    rw [Vec3.length, Plane.fitted_base1_sq pt indices hc, Real.sqrt_one]
  · show (Plane.fitted_base2 pt indices).length = 1
    rw [Vec3.length, Plane.fitted_base2_sq pt indices hc, Real.sqrt_one]

/-- Witness for C4: the example run `wpt`/`wnrm` ends valid, and the
invariants hold on its result. -/
theorem C4_valid_invariants_witness :
    (Plane.create_shape wpt wnrm [0, 1, 2]
      (PlaneState.init 0.9)).m_is_valid = true ∧
    (Plane.create_shape wpt wnrm [0, 1, 2]
        (PlaneState.init 0.9)).m_normal.length = 1 ∧
    Vec3.dot (Plane.create_shape wpt wnrm [0, 1, 2]
          (PlaneState.init 0.9)).m_normal
        (Plane.create_shape wpt wnrm [0, 1, 2]
          (PlaneState.init 0.9)).m_point_on_primitive +
      (Plane.create_shape wpt wnrm [0, 1, 2] (PlaneState.init 0.9)).m_d
      = 0 ∧
    Vec3.dot (Plane.create_shape wpt wnrm [0, 1, 2]
        (PlaneState.init 0.9)).m_base1
      (Plane.create_shape wpt wnrm [0, 1, 2]
        (PlaneState.init 0.9)).m_base2 = 0 ∧
    Vec3.dot (Plane.create_shape wpt wnrm [0, 1, 2]
        (PlaneState.init 0.9)).m_base1
      (Plane.create_shape wpt wnrm [0, 1, 2]
        (PlaneState.init 0.9)).m_normal = 0 ∧
    Vec3.dot (Plane.create_shape wpt wnrm [0, 1, 2]
        (PlaneState.init 0.9)).m_base2
      (Plane.create_shape wpt wnrm [0, 1, 2]
        (PlaneState.init 0.9)).m_normal = 0 ∧
    (Plane.create_shape wpt wnrm [0, 1, 2]
        (PlaneState.init 0.9)).m_base1.length = 1 ∧
    (Plane.create_shape wpt wnrm [0, 1, 2]
        (PlaneState.init 0.9)).m_base2.length = 1 := by
  have hv : (Plane.create_shape wpt wnrm [0, 1, 2]
      (PlaneState.init 0.9)).m_is_valid = true := by
    rw [wpt_create_shape]
  exact ⟨hv, C4_valid_invariants wpt wnrm [0, 1, 2] 0.9 hv⟩

/-- C5: for a valid plane, the single-point `squared_distance(p)` returns
exactly `((p - anchor_point) · normal)^2`; the batch variant writes that
value of `point(indices[i])` at every position `i < |indices|`; and
neither evaluation depends on the stored offset `m_d`. -/
theorem C5_squared_distance_spec (pt : ℕ → Vec3) (s : PlaneState)
    (hs : s.m_is_valid = true) :
    (∀ p : Vec3, Plane.squared_distance s p =
      (Vec3.dot (p - s.m_point_on_primitive) s.m_normal) ^ 2) ∧
    (∀ indices : List ℕ,
      (Plane.squared_distance_batch pt s indices).length = indices.length ∧
      ∀ i, i < indices.length →
        (Plane.squared_distance_batch pt s indices).getD i 0 =
          (Vec3.dot (pt (indices.getD i 0) - s.m_point_on_primitive)
            s.m_normal) ^ 2) ∧
    (∀ (d' : ℝ) (p : Vec3),
      Plane.squared_distance { s with m_d := d' } p =
        Plane.squared_distance s p) ∧
    (∀ (d' : ℝ) (indices : List ℕ),
      Plane.squared_distance_batch pt { s with m_d := d' } indices =
        Plane.squared_distance_batch pt s indices) := by
  refine ⟨?_, ?_, ?_, ?_⟩
  · intro p
    simp only [Plane.squared_distance]
    ring
  · intro indices
    constructor
    · simp [Plane.squared_distance_batch]
    · intro i hi
      have hi' : i < (Plane.squared_distance_batch pt s indices).length := by
        simpa [Plane.squared_distance_batch] using hi
      rw [List.getD_eq_getElem _ _ hi']
      simp only [Plane.squared_distance_batch, List.getElem_map]
      rw [List.getD_eq_getElem _ _ hi]
      ring
  · intro d' p
    rfl
  · intro d' indices
    rfl

/-- Witness for C5: on the example plane `z = 0` (a valid state), the
squared distance of the point `(1,2,3)` evaluates to `9`. -/
theorem C5_squared_distance_spec_witness :
    wstate.m_is_valid = true ∧
    Plane.squared_distance wstate ⟨1, 2, 3⟩ = 9 := by
  refine ⟨rfl, ?_⟩
  have h := (C5_squared_distance_spec wpt wstate rfl).1 ⟨1, 2, 3⟩
  rw [h]
  norm_num [wstate, Vec3.dot, Vec3.sub_def]

/-- C6: for a plane whose stored normal is unit (as any valid plane's is)
and any unit supplied normal, the angle-consistency evaluators — single
and batch `cos_to_normal` — return `|n · normal|`, a value in `[0, 1]`. -/
theorem C6_cos_to_normal_range (s : PlaneState)
    (hn : s.m_normal.squared_length = 1) :
    (∀ p n : Vec3, n.squared_length = 1 →
      Plane.cos_to_normal s p n = |Vec3.dot n s.m_normal| ∧
      0 ≤ Plane.cos_to_normal s p n ∧ Plane.cos_to_normal s p n ≤ 1) ∧
    (∀ (nrm : ℕ → Vec3) (indices : List ℕ),
      (Plane.cos_to_normal_batch nrm s indices).length = indices.length ∧
      ∀ i, i < indices.length →
        (nrm (indices.getD i 0)).squared_length = 1 →
        (Plane.cos_to_normal_batch nrm s indices).getD i 0 =
          |Vec3.dot (nrm (indices.getD i 0)) s.m_normal| ∧
        0 ≤ (Plane.cos_to_normal_batch nrm s indices).getD i 0 ∧
        (Plane.cos_to_normal_batch nrm s indices).getD i 0 ≤ 1) := by
  have key : ∀ n : Vec3, n.squared_length = 1 →
      |Vec3.dot n s.m_normal| ≤ 1 := by
    intro n h1
    have hL := Vec3.cross_squared_length n s.m_normal
    have hcr := Vec3.squared_length_nonneg (Vec3.cross n s.m_normal)
    have h2 : (Vec3.dot n s.m_normal) ^ 2 ≤ 1 := by nlinarith
    exact (sq_le_one_iff_abs_le_one _).mp h2
  constructor
  · intro p n h1
    exact ⟨rfl, abs_nonneg _, key n h1⟩
  · intro nrm indices
    constructor
    · simp [Plane.cos_to_normal_batch]
    · intro i hi h1
      have hi' : i < (Plane.cos_to_normal_batch nrm s indices).length := by
        simpa [Plane.cos_to_normal_batch] using hi
      have hval : (Plane.cos_to_normal_batch nrm s indices).getD i 0 =
          |Vec3.dot (nrm (indices.getD i 0)) s.m_normal| := by
        rw [List.getD_eq_getElem _ _ hi']
        simp only [Plane.cos_to_normal_batch, List.getElem_map]
        rw [List.getD_eq_getElem _ _ hi]
      exact ⟨hval, hval ▸ abs_nonneg _, hval ▸ key _ h1⟩

/-- Witness for C6: on the example plane `z = 0` (unit stored normal) and
the unit input normal `(0,1,0)`, the evaluator returns `0`, inside
`[0, 1]`. -/
theorem C6_cos_to_normal_range_witness :
    wstate.m_normal.squared_length = 1 ∧
    (⟨0, 1, 0⟩ : Vec3).squared_length = 1 ∧
    Plane.cos_to_normal wstate ⟨0, 0, 0⟩ ⟨0, 1, 0⟩ =
      |Vec3.dot ⟨0, 1, 0⟩ wstate.m_normal| ∧
    0 ≤ Plane.cos_to_normal wstate ⟨0, 0, 0⟩ ⟨0, 1, 0⟩ ∧
    Plane.cos_to_normal wstate ⟨0, 0, 0⟩ ⟨0, 1, 0⟩ ≤ 1 := by
  have hn : wstate.m_normal.squared_length = 1 := by
    norm_num [wstate, Vec3.squared_length]
  have h1 : (⟨0, 1, 0⟩ : Vec3).squared_length = 1 := by
    norm_num [Vec3.squared_length]
  exact ⟨hn, h1, (C6_cos_to_normal_range wstate hn).1 ⟨0, 0, 0⟩ ⟨0, 1, 0⟩ h1⟩

/-- C7: for a plane fitted validly by `create_shape` and any point `p`
lying exactly on the plane (`(p - anchor_point) · normal = 0`), the
parameterization `u = (p - anchor) · basis1`, `v = (p - anchor) · basis2`
is lossless: `anchor + u • basis1 + v • basis2 = p`. -/
theorem C7_parameterization_lossless (pt nrm : ℕ → Vec3)
    (indices : List ℕ) (threshold : ℝ)
    (hval : (Plane.create_shape pt nrm indices
      (PlaneState.init threshold)).m_is_valid = true)
    (p : Vec3)
    (hp : Vec3.dot (p - (Plane.create_shape pt nrm indices
        (PlaneState.init threshold)).m_point_on_primitive)
      (Plane.create_shape pt nrm indices
        (PlaneState.init threshold)).m_normal = 0) :
    (Plane.create_shape pt nrm indices
        (PlaneState.init threshold)).m_point_on_primitive +
      (Vec3.dot (p - (Plane.create_shape pt nrm indices
          (PlaneState.init threshold)).m_point_on_primitive)
        (Plane.create_shape pt nrm indices
          (PlaneState.init threshold)).m_base1) •
        (Plane.create_shape pt nrm indices
          (PlaneState.init threshold)).m_base1 +
      (Vec3.dot (p - (Plane.create_shape pt nrm indices
          (PlaneState.init threshold)).m_point_on_primitive)
        (Plane.create_shape pt nrm indices
          (PlaneState.init threshold)).m_base2) •
        (Plane.create_shape pt nrm indices
          (PlaneState.init threshold)).m_base2 = p := by
  obtain ⟨hlen, heq⟩ := Plane.create_shape_valid_structure pt nrm indices
    (PlaneState.init threshold) rfl hval
  have hc := Plane.fitted_cross_sq_pos pt indices hlen
  rw [heq] at hp ⊢
  show pt (indices.getD 0 0) +
      (Vec3.dot (p - pt (indices.getD 0 0)) (Plane.fitted_base1 pt indices)) •
        Plane.fitted_base1 pt indices +
      (Vec3.dot (p - pt (indices.getD 0 0)) (Plane.fitted_base2 pt indices)) •
        Plane.fitted_base2 pt indices = p
  have hp' : Vec3.dot (p - pt (indices.getD 0 0))
      (Plane.fitted_normal pt indices) = 0 := hp
  have hsum := Vec3.frame_complete (Plane.fitted_base1 pt indices)
    (Plane.fitted_normal pt indices)
    (Plane.fitted_base1_sq pt indices hc)
    (Plane.fitted_normal_sq pt indices hc)
    (Plane.fitted_base1_dot_normal pt indices)
    (p - pt (indices.getD 0 0))
  rw [← Plane.fitted_base2_eq pt indices hc] at hsum
  rw [hp'] at hsum
  simp only [Vec3.smul_def, Vec3.add_def, Vec3.sub_def, Vec3.dot] at hsum ⊢
  obtain ⟨e1, e2, e3⟩ := Vec3.mk.injEq .. |>.mp hsum
  cases p with
  | mk px py pz =>
    simp only [Vec3.mk.injEq]
    refine ⟨?_, ?_, ?_⟩
    · linear_combination e1
    · linear_combination e2
    · linear_combination e3

/-- Witness for C7: on the example plane `z = 0`, fitted validly from
`wpt`/`wnrm`, the on-plane point `(2,3,0)` is reproduced exactly from its
`(u, v)` parameters. -/
theorem C7_parameterization_lossless_witness :
    (Plane.create_shape wpt wnrm [0, 1, 2]
      (PlaneState.init 0.9)).m_is_valid = true ∧
    Vec3.dot ((⟨2, 3, 0⟩ : Vec3) - (Plane.create_shape wpt wnrm [0, 1, 2]
        (PlaneState.init 0.9)).m_point_on_primitive)
      (Plane.create_shape wpt wnrm [0, 1, 2]
        (PlaneState.init 0.9)).m_normal = 0 ∧
    (Plane.create_shape wpt wnrm [0, 1, 2]
        (PlaneState.init 0.9)).m_point_on_primitive +
      (Vec3.dot ((⟨2, 3, 0⟩ : Vec3) - (Plane.create_shape wpt wnrm [0, 1, 2]
          (PlaneState.init 0.9)).m_point_on_primitive)
        (Plane.create_shape wpt wnrm [0, 1, 2]
          (PlaneState.init 0.9)).m_base1) •
        (Plane.create_shape wpt wnrm [0, 1, 2]
          (PlaneState.init 0.9)).m_base1 +
      (Vec3.dot ((⟨2, 3, 0⟩ : Vec3) - (Plane.create_shape wpt wnrm [0, 1, 2]
          (PlaneState.init 0.9)).m_point_on_primitive)
        (Plane.create_shape wpt wnrm [0, 1, 2]
          (PlaneState.init 0.9)).m_base2) •
        (Plane.create_shape wpt wnrm [0, 1, 2]
          (PlaneState.init 0.9)).m_base2 = ⟨2, 3, 0⟩ := by
  have hv : (Plane.create_shape wpt wnrm [0, 1, 2]
      (PlaneState.init 0.9)).m_is_valid = true := by
    rw [wpt_create_shape]
  have hp : Vec3.dot ((⟨2, 3, 0⟩ : Vec3) -
      (Plane.create_shape wpt wnrm [0, 1, 2]
        (PlaneState.init 0.9)).m_point_on_primitive)
      (Plane.create_shape wpt wnrm [0, 1, 2]
        (PlaneState.init 0.9)).m_normal = 0 := by
    rw [wpt_create_shape]
    norm_num [Vec3.dot, Vec3.sub_def]
  exact ⟨hv, hp,
    C7_parameterization_lossless wpt wnrm [0, 1, 2] 0.9 hv ⟨2, 3, 0⟩ hp⟩

/-! ### Folded min/max facts for the parameterization bounds -/

theorem foldl_min_cases (l : List ℝ) :
    ∀ a : ℝ, (l.foldl min a ≤ a ∧ ∀ x ∈ l, l.foldl min a ≤ x) ∧
      (l.foldl min a = a ∨ l.foldl min a ∈ l) := by
  induction l with
  | nil =>
    intro a
    exact ⟨⟨le_refl a, by simp⟩, Or.inl rfl⟩
  | cons b t ih =>
    intro a
    simp only [List.foldl_cons]
    refine ⟨⟨le_trans (ih (min a b)).1.1 (min_le_left a b), ?_⟩, ?_⟩
    · intro x hx
      rcases List.mem_cons.mp hx with hxb | hxt
      · subst hxb
        exact le_trans (ih (min a x)).1.1 (min_le_right a x)
      · exact (ih (min a b)).1.2 x hxt
    · rcases (ih (min a b)).2 with heq | hmem
      · rcases min_choice a b with hab | hab
        · exact Or.inl (heq.trans hab)
        · exact Or.inr (List.mem_cons.mpr (Or.inl (heq.trans hab)))
      · exact Or.inr (List.mem_cons.mpr (Or.inr hmem))

theorem foldl_max_cases (l : List ℝ) :
    ∀ a : ℝ, (a ≤ l.foldl max a ∧ ∀ x ∈ l, x ≤ l.foldl max a) ∧
      (l.foldl max a = a ∨ l.foldl max a ∈ l) := by
  induction l with
  | nil =>
    intro a
    exact ⟨⟨le_refl a, by simp⟩, Or.inl rfl⟩
  | cons b t ih =>
    intro a
    simp only [List.foldl_cons]
    refine ⟨⟨le_trans (le_max_left a b) (ih (max a b)).1.1, ?_⟩, ?_⟩
    · intro x hx
      rcases List.mem_cons.mp hx with hxb | hxt
      · subst hxb
        exact le_trans (le_max_right a x) (ih (max a x)).1.1
      · exact (ih (max a b)).1.2 x hxt
    · rcases (ih (max a b)).2 with heq | hmem
      · rcases max_choice a b with hab | hab
        · exact Or.inl (heq.trans hab)
        · exact Or.inr (List.mem_cons.mpr (Or.inl (heq.trans hab)))
      · exact Or.inr (List.mem_cons.mpr (Or.inr hmem))

/-- Closed form of the `parameters` loop: the entries written are the
mapped `(u, v)` pairs in order, and the bounds are folded min/max. -/
theorem Plane.parameters_loop_eq (pt : ℕ → Vec3) (s : PlaneState)
    (L : List ℕ) :
    ∀ (acc : List (ℝ × ℝ)) (mn mx : ℝ × ℝ),
      Plane.parameters_loop pt s L acc mn mx =
        (acc ++ L.map (fun j => (paramU pt s j, paramV pt s j)),
         ((L.map (paramU pt s)).foldl min mn.1,
          (L.map (paramV pt s)).foldl min mn.2),
         ((L.map (paramU pt s)).foldl max mx.1,
          (L.map (paramV pt s)).foldl max mx.2)) := by
  induction L with
  | nil =>
    intro acc mn mx
    simp [Plane.parameters_loop]
  | cons j t ih =>
    intro acc mn mx
    simp only [Plane.parameters_loop, List.map_cons, List.foldl_cons]
    rw [ih]
    simp [paramU, paramV]

/-- Closed form of `Plane.parameters` on a non-empty batch. -/
theorem Plane.parameters_eq (pt : ℕ → Vec3) (s : PlaneState) (j0 : ℕ)
    (rest : List ℕ) :
    Plane.parameters pt s (j0 :: rest) =
      ((j0 :: rest).map (fun j => (paramU pt s j, paramV pt s j)),
       ((rest.map (paramU pt s)).foldl min (paramU pt s j0),
        (rest.map (paramV pt s)).foldl min (paramV pt s j0)),
       ((rest.map (paramU pt s)).foldl max (paramU pt s j0),
        (rest.map (paramV pt s)).foldl max (paramV pt s j0))) := by
  simp only [Plane.parameters]
  rw [Plane.parameters_loop_eq]
  simp [paramU, paramV]

/-- C8: for a valid plane and a non-empty index batch, `parameters`
writes at every position `i < |indices|` the pair
`(u_i, v_i) = ((p_i - anchor) · basis1, (p_i - anchor) · basis2)`, the
returned bounds enclose every pair componentwise, and each bound is
attained by some point of the batch. -/
theorem C8_parameters_bounds (pt : ℕ → Vec3) (s : PlaneState)
    (hs : s.m_is_valid = true) (indices : List ℕ) (hne : indices ≠ []) :
    (Plane.parameters pt s indices).1.length = indices.length ∧
    (∀ i, i < indices.length →
      (Plane.parameters pt s indices).1.getD i (0, 0) =
        (Plane.paramU pt s (indices.getD i 0), Plane.paramV pt s (indices.getD i 0))) ∧
    (∀ i, i < indices.length →
      (Plane.parameters pt s indices).2.1.1 ≤
          Plane.paramU pt s (indices.getD i 0) ∧
      Plane.paramU pt s (indices.getD i 0) ≤
          (Plane.parameters pt s indices).2.2.1 ∧
      (Plane.parameters pt s indices).2.1.2 ≤
          Plane.paramV pt s (indices.getD i 0) ∧
      Plane.paramV pt s (indices.getD i 0) ≤
          (Plane.parameters pt s indices).2.2.2) ∧
    (∃ i, i < indices.length ∧ (Plane.parameters pt s indices).2.1.1 =
      Plane.paramU pt s (indices.getD i 0)) ∧
    (∃ i, i < indices.length ∧ (Plane.parameters pt s indices).2.1.2 =
      Plane.paramV pt s (indices.getD i 0)) ∧
    (∃ i, i < indices.length ∧ (Plane.parameters pt s indices).2.2.1 =
      Plane.paramU pt s (indices.getD i 0)) ∧
    (∃ i, i < indices.length ∧ (Plane.parameters pt s indices).2.2.2 =
      Plane.paramV pt s (indices.getD i 0)) := by
  cases indices with
  | nil => exact absurd rfl hne
  | cons j0 rest =>
    rw [Plane.parameters_eq]
    have hmem : ∀ k, k < rest.length → ∀ f : ℕ → ℝ,
        f (rest.getD k 0) ∈ rest.map f := by
      intro k hk f
      rw [List.getD_eq_getElem _ _ hk]
      exact List.mem_map.mpr ⟨rest[k], List.getElem_mem hk, rfl⟩
    refine ⟨by simp, ?_, ?_, ?_, ?_, ?_, ?_⟩
    · intro i hi
      rw [List.getD_eq_getElem _ _ (by simpa using hi), List.getElem_map,
        List.getD_eq_getElem _ _ hi]
    · intro i hi
      cases i with
      | zero =>
        exact ⟨(foldl_min_cases (rest.map (Plane.paramU pt s)) _).1.1,
          (foldl_max_cases (rest.map (Plane.paramU pt s)) _).1.1,
          (foldl_min_cases (rest.map (Plane.paramV pt s)) _).1.1,
          (foldl_max_cases (rest.map (Plane.paramV pt s)) _).1.1⟩
      | succ k =>
        have hk : k < rest.length := by simpa using hi
        rw [List.getD_cons_succ]
        exact ⟨(foldl_min_cases (rest.map (Plane.paramU pt s)) _).1.2 _
            (hmem k hk (Plane.paramU pt s)),
          (foldl_max_cases (rest.map (Plane.paramU pt s)) _).1.2 _
            (hmem k hk (Plane.paramU pt s)),
          (foldl_min_cases (rest.map (Plane.paramV pt s)) _).1.2 _
            (hmem k hk (Plane.paramV pt s)),
          (foldl_max_cases (rest.map (Plane.paramV pt s)) _).1.2 _
            (hmem k hk (Plane.paramV pt s))⟩
    · rcases (foldl_min_cases (rest.map (Plane.paramU pt s))
          (Plane.paramU pt s j0)).2 with h | h
      · exact ⟨0, by simp, h⟩
      · obtain ⟨k, hk, hkeq⟩ := List.mem_iff_getElem.mp h
        have hkr : k < rest.length := by simpa using hk
        refine ⟨k + 1, by simpa using Nat.succ_lt_succ hkr, ?_⟩
        rw [List.getD_cons_succ, List.getD_eq_getElem _ _ hkr]
        rw [List.getElem_map] at hkeq
        exact hkeq.symm
    · rcases (foldl_min_cases (rest.map (Plane.paramV pt s))
          (Plane.paramV pt s j0)).2 with h | h
      · exact ⟨0, by simp, h⟩
      · obtain ⟨k, hk, hkeq⟩ := List.mem_iff_getElem.mp h
        have hkr : k < rest.length := by simpa using hk
        refine ⟨k + 1, by simpa using Nat.succ_lt_succ hkr, ?_⟩
        rw [List.getD_cons_succ, List.getD_eq_getElem _ _ hkr]
        rw [List.getElem_map] at hkeq
        exact hkeq.symm
    · rcases (foldl_max_cases (rest.map (Plane.paramU pt s))
          (Plane.paramU pt s j0)).2 with h | h
      · exact ⟨0, by simp, h⟩
      · obtain ⟨k, hk, hkeq⟩ := List.mem_iff_getElem.mp h
        have hkr : k < rest.length := by simpa using hk
        refine ⟨k + 1, by simpa using Nat.succ_lt_succ hkr, ?_⟩
        rw [List.getD_cons_succ, List.getD_eq_getElem _ _ hkr]
        rw [List.getElem_map] at hkeq
        exact hkeq.symm
    · rcases (foldl_max_cases (rest.map (Plane.paramV pt s))
          (Plane.paramV pt s j0)).2 with h | h
      · exact ⟨0, by simp, h⟩
      · obtain ⟨k, hk, hkeq⟩ := List.mem_iff_getElem.mp h
        have hkr : k < rest.length := by simpa using hk
        refine ⟨k + 1, by simpa using Nat.succ_lt_succ hkr, ?_⟩
        rw [List.getD_cons_succ, List.getD_eq_getElem _ _ hkr]
        rw [List.getElem_map] at hkeq
        exact hkeq.symm

/-- Witness for C8: the valid example plane and the two-point batch
`[0, 1]` of `wpt` satisfy the hypotheses, and the entries/bounds
properties hold there. -/
theorem C8_parameters_bounds_witness :
    wstate.m_is_valid = true ∧
    ([0, 1] : List ℕ) ≠ [] ∧
    ((Plane.parameters wpt wstate [0, 1]).1.length =
      ([0, 1] : List ℕ).length ∧
    (∀ i, i < ([0, 1] : List ℕ).length →
      (Plane.parameters wpt wstate [0, 1]).1.getD i (0, 0) =
        (Plane.paramU wpt wstate (([0, 1] : List ℕ).getD i 0),
         Plane.paramV wpt wstate (([0, 1] : List ℕ).getD i 0))) ∧
    (∀ i, i < ([0, 1] : List ℕ).length →
      (Plane.parameters wpt wstate [0, 1]).2.1.1 ≤
          Plane.paramU wpt wstate (([0, 1] : List ℕ).getD i 0) ∧
      Plane.paramU wpt wstate (([0, 1] : List ℕ).getD i 0) ≤
          (Plane.parameters wpt wstate [0, 1]).2.2.1 ∧
      (Plane.parameters wpt wstate [0, 1]).2.1.2 ≤
          Plane.paramV wpt wstate (([0, 1] : List ℕ).getD i 0) ∧
      Plane.paramV wpt wstate (([0, 1] : List ℕ).getD i 0) ≤
          (Plane.parameters wpt wstate [0, 1]).2.2.2) ∧
    (∃ i, i < ([0, 1] : List ℕ).length ∧
      (Plane.parameters wpt wstate [0, 1]).2.1.1 =
        Plane.paramU wpt wstate (([0, 1] : List ℕ).getD i 0)) ∧
    (∃ i, i < ([0, 1] : List ℕ).length ∧
      (Plane.parameters wpt wstate [0, 1]).2.1.2 =
        Plane.paramV wpt wstate (([0, 1] : List ℕ).getD i 0)) ∧
    (∃ i, i < ([0, 1] : List ℕ).length ∧
      (Plane.parameters wpt wstate [0, 1]).2.2.1 =
        Plane.paramU wpt wstate (([0, 1] : List ℕ).getD i 0)) ∧
    (∃ i, i < ([0, 1] : List ℕ).length ∧
      (Plane.parameters wpt wstate [0, 1]).2.2.2 =
        Plane.paramV wpt wstate (([0, 1] : List ℕ).getD i 0))) :=
  ⟨rfl, by simp,
    C8_parameters_bounds wpt wstate rfl [0, 1] (by simp)⟩

/-! ### Unfolding lemmas for the hoisted variant -/

theorem Plane.hoisted_nil (nrm : ℕ → Vec3) (indices : List ℕ)
    (p1 p2 : Vec3) (s : PlaneState) :
    Plane.consistency_loop_hoisted nrm indices p1 p2 [] s =
      { s with
          m_point_on_primitive := p1
          m_base1 := (1 / Real.sqrt
              (Vec3.cross (p1 - p2) s.m_normal).squared_length) •
            Vec3.cross (p1 - p2) s.m_normal
          m_base2 := (1 / Real.sqrt
              (Vec3.cross
                ((1 / Real.sqrt
                    (Vec3.cross (p1 - p2) s.m_normal).squared_length) •
                  Vec3.cross (p1 - p2) s.m_normal)
                s.m_normal).squared_length) •
            Vec3.cross
              ((1 / Real.sqrt
                  (Vec3.cross (p1 - p2) s.m_normal).squared_length) •
                Vec3.cross (p1 - p2) s.m_normal)
              s.m_normal
          m_is_valid := true } := rfl

theorem Plane.hoisted_cons_fail (nrm : ℕ → Vec3) (indices : List ℕ)
    (p1 p2 : Vec3) (i : ℕ) (rest : List ℕ) (s : PlaneState)
    (h : Plane.deviation_fails nrm indices s.m_normal_threshold
      s.m_normal i) :
    Plane.consistency_loop_hoisted nrm indices p1 p2 (i :: rest) s =
      { s with m_is_valid := false } := by
  simp only [Plane.deviation_fails] at h
  simp only [Plane.consistency_loop_hoisted]
  rw [if_pos h]

theorem Plane.hoisted_cons_pass (nrm : ℕ → Vec3) (indices : List ℕ)
    (p1 p2 : Vec3) (i : ℕ) (rest : List ℕ) (s : PlaneState)
    (h : ¬ Plane.deviation_fails nrm indices s.m_normal_threshold
      s.m_normal i) :
    Plane.consistency_loop_hoisted nrm indices p1 p2 (i :: rest) s =
      Plane.consistency_loop_hoisted nrm indices p1 p2 rest s := by
  simp only [Plane.deviation_fails] at h
  simp only [Plane.consistency_loop_hoisted]
  rw [if_neg h]

theorem Plane.create_shape_hoisted_degenerate (pt nrm : ℕ → Vec3)
    (indices : List ℕ) (s : PlaneState)
    (h : Real.sqrt (Plane.fitted_cross pt indices).squared_length
      < 0.0001) :
    Plane.create_shape_hoisted pt nrm indices s =
      { s with m_normal := Plane.fitted_cross pt indices } := by
  simp only [Plane.fitted_cross] at h
  simp only [Plane.create_shape_hoisted]
  rw [if_pos h]
  rfl

theorem Plane.create_shape_hoisted_nondegenerate (pt nrm : ℕ → Vec3)
    (indices : List ℕ) (s : PlaneState)
    (h : ¬ Real.sqrt (Plane.fitted_cross pt indices).squared_length
      < 0.0001) :
    Plane.create_shape_hoisted pt nrm indices s =
      Plane.consistency_loop_hoisted nrm indices (pt (indices.getD 0 0))
        (pt (indices.getD 1 0)) [0, 1, 2]
        { s with
            m_normal := Plane.fitted_normal pt indices
            m_d := Plane.fitted_d pt indices } := by
  simp only [Plane.fitted_cross] at h
  simp only [Plane.create_shape_hoisted]
  rw [if_neg h]
  rfl

set_option maxHeartbeats 1600000 in
/-- C9 (amended): the reference `create_shape` and the variant with the
tangent-frame computation hoisted out of the consistency loop always
agree on `is_valid`, `normal` and `offset`, and agree on every field
whenever the fit is valid.  (When validation fails at sample index 1 or 2
the reference implementation has already overwritten `anchor_point`,
`basis1`, `basis2` while the hoisted variant has not — see the
counterexample — so full equality holds only for valid fits.) -/
theorem C9_hoist_equiv_amended (pt nrm : ℕ → Vec3) (indices : List ℕ)
    (s : PlaneState) :
    (Plane.create_shape pt nrm indices s).m_is_valid =
      (Plane.create_shape_hoisted pt nrm indices s).m_is_valid ∧
    (Plane.create_shape pt nrm indices s).m_normal =
      (Plane.create_shape_hoisted pt nrm indices s).m_normal ∧
    (Plane.create_shape pt nrm indices s).m_d =
      (Plane.create_shape_hoisted pt nrm indices s).m_d ∧
    ((Plane.create_shape pt nrm indices s).m_is_valid = true →
      Plane.create_shape pt nrm indices s =
        Plane.create_shape_hoisted pt nrm indices s) := by
  by_cases hlen : Real.sqrt (Plane.fitted_cross pt indices).squared_length
    < 0.0001
  · rw [Plane.create_shape_degenerate pt nrm indices s hlen,
      Plane.create_shape_hoisted_degenerate pt nrm indices s hlen]
    exact ⟨rfl, rfl, rfl, fun _ => rfl⟩
  · by_cases h0 : Plane.deviation_fails nrm indices s.m_normal_threshold
      (Plane.fitted_normal pt indices) 0
    · rw [Plane.create_shape_nondegenerate pt nrm indices s hlen,
        Plane.create_shape_hoisted_nondegenerate pt nrm indices s hlen,
        Plane.consistency_loop_cons_fail nrm indices _ _ 0 [1, 2] _ h0,
        Plane.hoisted_cons_fail nrm indices _ _ 0 [1, 2] _ h0]
      exact ⟨rfl, rfl, rfl, fun hv => absurd hv (by simp)⟩
    · by_cases h1 : Plane.deviation_fails nrm indices s.m_normal_threshold
        (Plane.fitted_normal pt indices) 1
      · rw [Plane.create_shape_nondegenerate pt nrm indices s hlen,
          Plane.create_shape_hoisted_nondegenerate pt nrm indices s hlen,
          Plane.consistency_loop_cons_pass nrm indices _ _ 0 [1, 2] _ h0,
          Plane.hoisted_cons_pass nrm indices _ _ 0 [1, 2] _ h0,
          Plane.consistency_loop_cons_fail nrm indices _ _ 1 [2] _ h1,
          Plane.hoisted_cons_fail nrm indices _ _ 1 [2] _ h1]
        exact ⟨rfl, rfl, rfl, fun hv => absurd hv (by simp)⟩
      · by_cases h2 : Plane.deviation_fails nrm indices
          s.m_normal_threshold (Plane.fitted_normal pt indices) 2
        · rw [Plane.create_shape_nondegenerate pt nrm indices s hlen,
            Plane.create_shape_hoisted_nondegenerate pt nrm indices s hlen,
            Plane.consistency_loop_cons_pass nrm indices _ _ 0 [1, 2] _ h0,
            Plane.hoisted_cons_pass nrm indices _ _ 0 [1, 2] _ h0,
            Plane.consistency_loop_cons_pass nrm indices _ _ 1 [2] _ h1,
            Plane.hoisted_cons_pass nrm indices _ _ 1 [2] _ h1,
            Plane.consistency_loop_cons_fail nrm indices _ _ 2 [] _ h2,
            Plane.hoisted_cons_fail nrm indices _ _ 2 [] _ h2]
          exact ⟨rfl, rfl, rfl, fun hv => absurd hv (by simp)⟩
        · rw [Plane.create_shape_all_pass pt nrm indices s hlen h0 h1 h2,
            Plane.create_shape_hoisted_nondegenerate pt nrm indices s hlen,
            Plane.hoisted_cons_pass nrm indices _ _ 0 [1, 2] _ h0,
            Plane.hoisted_cons_pass nrm indices _ _ 1 [2] _ h1,
            Plane.hoisted_cons_pass nrm indices _ _ 2 [] _ h2,
            Plane.hoisted_nil]
          exact ⟨rfl, rfl, rfl, fun _ => rfl⟩

/-! ### Evaluation on `wptHigh`, where the two variants leave different
anchor fields behind -/

theorem wptHigh_fitted_cross :
    Plane.fitted_cross wptHigh [0, 1, 2] = ⟨0, 0, 1⟩ := by
  simp only [Plane.fitted_cross, wptHigh, List.getD]
  norm_num [Vec3.sub_def, Vec3.cross]

theorem wptHigh_nondegenerate :
    ¬ Real.sqrt (Plane.fitted_cross wptHigh [0, 1, 2]).squared_length
      < 0.0001 := by
  rw [wptHigh_fitted_cross]
  have h1 : (⟨0, 0, 1⟩ : Vec3).squared_length = 1 := by
    norm_num [Vec3.squared_length]
  rw [h1, Real.sqrt_one]
  norm_num

theorem wptHigh_fitted_normal :
    Plane.fitted_normal wptHigh [0, 1, 2] = ⟨0, 0, 1⟩ := by
  rw [Plane.fitted_normal, wptHigh_fitted_cross]
  have h1 : (⟨0, 0, 1⟩ : Vec3).squared_length = 1 := by
    norm_num [Vec3.squared_length]
  rw [h1, Real.sqrt_one]
  norm_num [Vec3.smul_def]

theorem wptHigh_pass0 :
    ¬ Plane.deviation_fails wnrmBad [0, 1, 2] (0.9 : ℝ)
      (Plane.fitted_normal wptHigh [0, 1, 2]) 0 := by
  simp only [Plane.deviation_fails, wptHigh_fitted_normal, wnrmBad,
    List.getD]
  norm_num [Vec3.dot, Vec3.squared_length]

theorem wptHigh_fail1 :
    Plane.deviation_fails wnrmBad [0, 1, 2] (0.9 : ℝ)
      (Plane.fitted_normal wptHigh [0, 1, 2]) 1 := by
  simp only [Plane.deviation_fails, wptHigh_fitted_normal, wnrmBad,
    List.getD]
  norm_num [Vec3.dot, Vec3.squared_length]

/-- Counterexample to C9 as stated: on the sample
`(0,0,1), (1,0,1), (0,1,1)` with supplied normals `(0,0,1), (1,0,0), …`
and threshold `0.9` (validation fails at sample index 1), the reference
implementation leaves `m_point_on_primitive = (0,0,1)` while the hoisted
variant leaves the initial `(0,0,0)`: the two variants do not produce the
same final `anchor_point`. -/
theorem C9_hoist_counterexample :
    ¬ ((Plane.create_shape wptHigh wnrmBad [0, 1, 2]
        (PlaneState.init 0.9)).m_point_on_primitive =
      (Plane.create_shape_hoisted wptHigh wnrmBad [0, 1, 2]
        (PlaneState.init 0.9)).m_point_on_primitive) := by
  have horig : (Plane.create_shape wptHigh wnrmBad [0, 1, 2]
      (PlaneState.init 0.9)).m_point_on_primitive = ⟨0, 0, 1⟩ := by
    rw [Plane.create_shape_nondegenerate wptHigh wnrmBad [0, 1, 2] _
        wptHigh_nondegenerate,
      Plane.consistency_loop_cons_pass wnrmBad [0, 1, 2] _ _ 0 [1, 2] _
        wptHigh_pass0,
      Plane.consistency_loop_cons_fail wnrmBad [0, 1, 2] _ _ 1 [2] _
        wptHigh_fail1]
    show wptHigh (([0, 1, 2] : List ℕ).getD 0 0) = ⟨0, 0, 1⟩
    norm_num [wptHigh, List.getD]
  have hhoist : (Plane.create_shape_hoisted wptHigh wnrmBad [0, 1, 2]
      (PlaneState.init 0.9)).m_point_on_primitive = ⟨0, 0, 0⟩ := by
    rw [Plane.create_shape_hoisted_nondegenerate wptHigh wnrmBad [0, 1, 2]
        _ wptHigh_nondegenerate,
      Plane.hoisted_cons_pass wnrmBad [0, 1, 2] _ _ 0 [1, 2] _
        wptHigh_pass0,
      Plane.hoisted_cons_fail wnrmBad [0, 1, 2] _ _ 1 [2] _ wptHigh_fail1]
    rfl
  rw [horig, hhoist]
  simp only [Vec3.mk.injEq]
  norm_num

/-- Witness for the amended C9: on the example valid fit `wpt`/`wnrm`
the two variants agree on `is_valid`, `normal`, `offset`, and — the fit
being valid — on every field. -/
theorem C9_hoist_equiv_amended_witness :
    ((Plane.create_shape wpt wnrm [0, 1, 2]
        (PlaneState.init 0.9)).m_is_valid =
      (Plane.create_shape_hoisted wpt wnrm [0, 1, 2]
        (PlaneState.init 0.9)).m_is_valid) ∧
    ((Plane.create_shape wpt wnrm [0, 1, 2]
        (PlaneState.init 0.9)).m_is_valid = true) ∧
    Plane.create_shape wpt wnrm [0, 1, 2] (PlaneState.init 0.9) =
      Plane.create_shape_hoisted wpt wnrm [0, 1, 2]
        (PlaneState.init 0.9) := by
  have h := C9_hoist_equiv_amended wpt wnrm [0, 1, 2] (PlaneState.init 0.9)
  have hv : (Plane.create_shape wpt wnrm [0, 1, 2]
      (PlaneState.init 0.9)).m_is_valid = true := by
    rw [wpt_create_shape]
  exact ⟨h.1, hv, h.2.2.2 hv⟩

/-! ### The checked variants agree with the total models in bounds -/

theorem Plane.consistency_loop_checked_eq (nrm : ℕ → Vec3)
    (indices : List ℕ) (p1 p2 : Vec3) (L : List ℕ) :
    ∀ s : PlaneState, (∀ i ∈ L, i < indices.length) →
      Plane.consistency_loop_checked nrm indices p1 p2 L s =
        some (Plane.consistency_loop nrm indices p1 p2 L s) := by
  induction L with
  | nil =>
    intro s _
    rfl
  | cons i rest ih =>
    intro s hb
    have hi : i < indices.length := hb i (by simp)
    have hgd : indices.getD i 0 = indices[i] := List.getD_eq_getElem _ _ hi
    simp only [Plane.consistency_loop_checked, Plane.consistency_loop,
      List.getElem?_eq_getElem hi, Option.bind_eq_bind, Option.some_bind, hgd]
    split
    · rfl
    · exact ih _ fun j hj => hb j (List.mem_cons_of_mem _ hj)

theorem Plane.create_shape_checked_eq (pt nrm : ℕ → Vec3)
    (indices : List ℕ) (s : PlaneState)
    (h3 : Plane.minimum_sample_size ≤ indices.length) :
    Plane.create_shape_checked pt nrm indices s =
      some (Plane.create_shape pt nrm indices s) := by
  have hlen : 3 ≤ indices.length := h3
  have h0 : 0 < indices.length := by omega
  have h1 : 1 < indices.length := by omega
  have h2 : 2 < indices.length := by omega
  have g0 : indices.getD 0 0 = indices[0] := List.getD_eq_getElem _ _ h0
  have g1 : indices.getD 1 0 = indices[1] := List.getD_eq_getElem _ _ h1
  have g2 : indices.getD 2 0 = indices[2] := List.getD_eq_getElem _ _ h2
  simp only [Plane.create_shape_checked, Plane.create_shape,
    List.getElem?_eq_getElem h0, List.getElem?_eq_getElem h1,
    List.getElem?_eq_getElem h2, Option.bind_eq_bind, Option.some_bind, g0, g1, g2]
  split
  · rfl
  · rw [Plane.consistency_loop_checked_eq nrm indices _ _ [0, 1, 2] _
      (by intro i hi; simp at hi; rcases hi with h | h | h <;> omega)]

theorem Plane.sqdist_loop_checked_isSome (pt : ℕ → Vec3) (s : PlaneState)
    (L : List ℕ) :
    ∀ (i : ℕ) (ds : List ℝ), i + L.length ≤ ds.length →
      (Plane.sqdist_loop_checked pt s L i ds).isSome = true := by
  induction L with
  | nil =>
    intro i ds _
    rfl
  | cons j rest ih =>
    intro i ds h
    have hi : i < ds.length := by
      simp only [List.length_cons] at h
      omega
    simp only [Plane.sqdist_loop_checked, Plane.set_checked, if_pos hi,
      Option.bind_eq_bind, Option.some_bind]
    refine ih (i + 1) _ ?_
    simp only [List.length_set]
    simp only [List.length_cons] at h
    omega

theorem Plane.cos_loop_checked_isSome (nrm : ℕ → Vec3) (s : PlaneState)
    (L : List ℕ) :
    ∀ (i : ℕ) (as : List ℝ), i + L.length ≤ as.length →
      (Plane.cos_loop_checked nrm s L i as).isSome = true := by
  induction L with
  | nil =>
    intro i as _
    rfl
  | cons j rest ih =>
    intro i as h
    have hi : i < as.length := by
      simp only [List.length_cons] at h
      omega
    simp only [Plane.cos_loop_checked, Plane.set_checked, if_pos hi,
      Option.bind_eq_bind, Option.some_bind]
    refine ih (i + 1) _ ?_
    simp only [List.length_set]
    simp only [List.length_cons] at h
    omega

theorem Plane.parameters_loop_checked_isSome (pt : ℕ → Vec3)
    (s : PlaneState) (L : List ℕ) :
    ∀ (i : ℕ) (ps : List (ℝ × ℝ)) (mn mx : ℝ × ℝ),
      i + L.length ≤ ps.length →
      (Plane.parameters_loop_checked pt s L i ps mn mx).isSome = true := by
  induction L with
  | nil =>
    intro i ps mn mx _
    rfl
  | cons j rest ih =>
    intro i ps mn mx h
    have hi : i < ps.length := by
      simp only [List.length_cons] at h
      omega
    simp only [Plane.parameters_loop_checked, Plane.set_checked, if_pos hi,
      Option.bind_eq_bind, Option.some_bind]
    refine ih (i + 1) _ _ _ ?_
    simp only [List.length_set]
    simp only [List.length_cons] at h
    omega

/-- C10: every container subscript of the operations is in bounds under
the documented size preconditions — `create_shape` reads only
`indices[0..2]`, so with at least `minimum_sample_size` indices its
checked model succeeds (and agrees with the total model); `parameters`
requires a non-empty batch and an output vector at least the batch size;
the batch `squared_distance` and `cos_to_normal` require output vectors
at least the batch size. -/
theorem C10_accesses_in_bounds :
    (∀ (pt nrm : ℕ → Vec3) (indices : List ℕ) (s : PlaneState),
      Plane.minimum_sample_size ≤ indices.length →
      Plane.create_shape_checked pt nrm indices s =
        some (Plane.create_shape pt nrm indices s)) ∧
    (∀ (pt : ℕ → Vec3) (s : PlaneState) (indices : List ℕ)
        (paramSpace : List (ℝ × ℝ)),
      indices ≠ [] → indices.length ≤ paramSpace.length →
      (Plane.parameters_checked pt s indices paramSpace).isSome = true) ∧
    (∀ (pt : ℕ → Vec3) (s : PlaneState) (indices : List ℕ)
        (dists : List ℝ),
      indices.length ≤ dists.length →
      (Plane.squared_distance_batch_checked pt s indices dists).isSome
        = true) ∧
    (∀ (nrm : ℕ → Vec3) (s : PlaneState) (indices : List ℕ)
        (angles : List ℝ),
      indices.length ≤ angles.length →
      (Plane.cos_to_normal_batch_checked nrm s indices angles).isSome
        = true) := by
  refine ⟨Plane.create_shape_checked_eq, ?_, ?_, ?_⟩
  · intro pt s indices paramSpace hne hlen
    cases indices with
    | nil => exact absurd rfl hne
    | cons j0 rest =>
      have h0 : 0 < (j0 :: rest).length := by simp
      have hps : 0 < paramSpace.length := by
        simp only [List.length_cons] at hlen
        omega
      simp only [Plane.parameters_checked, List.getElem?_eq_getElem h0,
        Option.bind_eq_bind, Option.some_bind, Plane.set_checked, if_pos hps]
      refine Plane.parameters_loop_checked_isSome pt s _ 1 _ _ _ ?_
      simp only [List.length_set, List.tail_cons]
      simp only [List.length_cons] at hlen
      omega
  · intro pt s indices dists hlen
    exact Plane.sqdist_loop_checked_isSome pt s indices 0 dists
      (by omega)
  · intro nrm s indices angles hlen
    exact Plane.cos_loop_checked_isSome nrm s indices 0 angles
      (by omega)

/-- Witness for C10: concrete in-bounds instances — the example sample of
length 3 for `create_shape`, a batch of 2 with an output vector of 2 for
`parameters`, and singleton batches for the distance and angle
evaluators. -/
theorem C10_accesses_in_bounds_witness :
    (Plane.minimum_sample_size ≤ ([0, 1, 2] : List ℕ).length) ∧
    Plane.create_shape_checked wpt wnrm [0, 1, 2] (PlaneState.init 0.9) =
      some (Plane.create_shape wpt wnrm [0, 1, 2] (PlaneState.init 0.9)) ∧
    (Plane.parameters_checked wpt wstate [0, 1]
      [(0, 0), (0, 0)]).isSome = true ∧
    (Plane.squared_distance_batch_checked wpt wstate [0] [0]).isSome
      = true ∧
    (Plane.cos_to_normal_batch_checked wnrm wstate [0] [0]).isSome
      = true := by
  obtain ⟨hcs, hpar, hsq, hcos⟩ := C10_accesses_in_bounds
  refine ⟨by simp [Plane.minimum_sample_size], ?_, ?_, ?_, ?_⟩
  · exact hcs wpt wnrm [0, 1, 2] (PlaneState.init 0.9)
      (by simp [Plane.minimum_sample_size])
  · exact hpar wpt wstate [0, 1] [(0, 0), (0, 0)] (by simp) (by simp)
  · exact hsq wpt wstate [0] [0] (by simp)
  · exact hcos wnrm wstate [0] [0] (by simp)
